import Mathlib

/-
  Verification of the Harmonia RFC action-ledger and workflow orchestrator.

  The development shallowly embeds the Go data model (src/models/base.go),
  the controller orchestration (src/controllers/controller.go) and the
  GitHub mergeability poller (src/services/git/github.go) as pure Lean
  functions, and settles the frozen claims against them.

  Modelling conventions:
  - Go strings are Lean Strings; all concrete inputs are ASCII, so one
    Char is one byte and Go's UTF-8 byte order coincides with the Char
    code order used here.
  - `map[string]interface{}` data objects are association lists
    `List (String × JVal)`; a nil Go map is `none`, a non-nil map is
    `some kvs` (writing through a nil map panics in Go, which the model
    surfaces as `Option.none` results).
  - `json.Marshal` is reproduced byte-for-byte for the struct shapes the
    code hashes (field order = declaration order, `omitempty` semantics,
    map keys sorted); SHA-256 is implemented in full, so the repository's
    own test-fixture signatures are reproduced by evaluation.
  - fallible Go functions (error returns) become `Except String`/`Option`
    results; Go map iteration order, which is unspecified, is modelled as
    association-list (insertion) order — every verified statement about
    map-driven loops is insensitive to that order.
-/

namespace Harmonia

/-- JSON-representable values that occur in Action `data` objects. -/
inductive JVal where
  | str (s : String)
  | bool (b : Bool)
deriving DecidableEq

/-- Go `Target` struct (models/base.go): locates what an Action acts upon. -/
structure Target where
  targetType : String
  targetDescriptor : String
  lookupKey : String
  lookupValue : String
deriving DecidableEq

/-- Go `map[string]interface{}`: `none` is a nil map, `some kvs` a live map. -/
abbrev ActionData := Option (List (String × JVal))

/-- Go `Action` struct (models/base.go). -/
structure Action where
  actionType : String
  target : Target
  signature : String
  data : ActionData
deriving DecidableEq

/-- Go `RFC` struct (models/base.go). -/
structure RFC where
  actions : List Action
  signature : String
  identifier : String
deriving DecidableEq

/-- models/base.go: `var CommentAction ActionType = "comment"`. -/
def CommentAction : String := "comment"

/-- models/base.go: `var LoadAction ActionType = "load"`. -/
def LoadAction : String := "load"

/-- models/base.go: `var AddAction ActionType = "add"`. -/
def AddActionType : String := "add"

/-- models/base.go: `var CommentData DataKey = "comment"`. -/
def CommentData : String := "comment"

/-- models/base.go: `var CommenterData DataKey = "commenter"`. -/
def CommenterData : String := "commenter"

/-- models/base.go: `var NoteData DataKey = "note"`. -/
def NoteData : String := "note"

/-- models/base.go: `var LoadStatus DataKey = "status"`. -/
def LoadStatus : String := "status"

/-- models/base.go: `var LoadRequester DataKey = "requester"`. -/
def LoadRequester : String := "requester"

/-- models/base.go: `var ReviewerData DataKey = "reviewer"`. -/
def ReviewerData : String := "reviewer"

/-- models/base.go: `var SignatureLookupKey string = "signature"`. -/
def SignatureLookupKey : String := "signature"

/-- git/definition.go: target types used by the controller. -/
def ActionTarget : String := "action"

/-- models/base.go: `var RfcTarget TargetType = "rfc"`. -/
def RfcTarget : String := "rfc"

/-- models/base.go: `var ItemTarget TargetType = "item"`. -/
def ItemTarget : String := "item"

/-! ## SHA-256 (crypto/sha256), on byte lists -/

/-- Reduce modulo 2^32, the word size of SHA-256 arithmetic. -/
def w32 (n : Nat) : Nat := n % 4294967296

/-- Rotate a 32-bit word right by `n` bits. -/
def rotr32 (n x : Nat) : Nat := w32 ((x >>> n) ||| (x <<< (32 - n)))

/-- SHA-256 lower-case sigma-0. -/
def smallSigma0 (x : Nat) : Nat := (rotr32 7 x) ^^^ (rotr32 18 x) ^^^ (x >>> 3)

/-- SHA-256 lower-case sigma-1. -/
def smallSigma1 (x : Nat) : Nat := (rotr32 17 x) ^^^ (rotr32 19 x) ^^^ (x >>> 10)

/-- SHA-256 upper-case Sigma-0. -/
def bigSigma0 (x : Nat) : Nat := (rotr32 2 x) ^^^ (rotr32 13 x) ^^^ (rotr32 22 x)

/-- SHA-256 upper-case Sigma-1. -/
def bigSigma1 (x : Nat) : Nat := (rotr32 6 x) ^^^ (rotr32 11 x) ^^^ (rotr32 25 x)

/-- SHA-256 round constants (FIPS 180-4, in decimal). -/
def shaK : List Nat :=
  [1116352408, 1899447441, 3049323471, 3921009573, 961987163, 1508970993,
   2453635748, 2870763221, 3624381080, 310598401, 607225278, 1426881987,
   1925078388, 2162078206, 2614888103, 3248222580, 3835390401, 4022224774,
   264347078, 604807628, 770255983, 1249150122, 1555081692, 1996064986,
   2554220882, 2821834349, 2952996808, 3210313671, 3336571891, 3584528711,
   113926993, 338241895, 666307205, 773529912, 1294757372, 1396182291,
   1695183700, 1986661051, 2177026350, 2456956037, 2730485921, 2820302411,
   3259730800, 3345764771, 3516065817, 3600352804, 4094571909, 275423344,
   430227734, 506948616, 659060556, 883997877, 958139571, 1322822218,
   1537002063, 1747873779, 1955562222, 2024104815, 2227730452, 2361852424,
   2428436474, 2756734187, 3204031479, 3329325298]

/-- SHA-256 initial hash state (FIPS 180-4, in decimal). -/
def shaH0 : List Nat :=
  [1779033703, 3144134277, 1013904242, 2773480762,
   1359893119, 2600822924, 528734635, 1541459225]

/-- Big-endian byte expansion of `v` into `k` bytes. -/
def beBytes (k : Nat) (v : Nat) : List Nat :=
  (List.range k).map (fun i => (v >>> (8 * (k - 1 - i))) % 256)

/-- SHA-256 message padding: append 0x80, zeros, and the 64-bit bit length. -/
def padMessage (msg : List Nat) : List Nat :=
  let l := msg.length
  let padLen := (64 - ((l + 9) % 64)) % 64
  msg ++ [0x80] ++ List.replicate padLen 0 ++ beBytes 8 (8 * l)

/-- Split a byte list into 64-byte chunks; fuel-driven for structural recursion. -/
def chunks64Aux : Nat → List Nat → List (List Nat)
  | 0, _ => []
  | Nat.succ fuel, l => if l.isEmpty then [] else l.take 64 :: chunks64Aux fuel (l.drop 64)

/-- Split a byte list into 64-byte chunks. -/
def chunks64 (l : List Nat) : List (List Nat) := chunks64Aux l.length l

/-- Interpret a 64-byte block as 16 big-endian 32-bit words. -/
def toWords (block : List Nat) : List Nat :=
  (List.range 16).map (fun i =>
    block.getD (4 * i) 0 * 16777216 + block.getD (4 * i + 1) 0 * 65536 +
    block.getD (4 * i + 2) 0 * 256 + block.getD (4 * i + 3) 0)

/-- Extend 16 schedule words to the full 64-word message schedule. -/
def extendSchedule (ws : List Nat) : List Nat :=
  (List.range 48).foldl (fun ws _ =>
    let n := ws.length
    ws ++ [w32 (ws.getD (n - 16) 0 + smallSigma0 (ws.getD (n - 15) 0) +
                ws.getD (n - 7) 0 + smallSigma1 (ws.getD (n - 2) 0))]) ws

/-- One SHA-256 compression round on the 8-word working state. -/
def compressRound (st : List Nat) (kw : Nat × Nat) : List Nat :=
  match st with
  | [a, b, c, d, e, f, g, h] =>
    let ch := (e &&& f) ^^^ ((e ^^^ 4294967295) &&& g)
    let maj := (a &&& b) ^^^ (a &&& c) ^^^ (b &&& c)
    let t1 := w32 (h + bigSigma1 e + ch + kw.1 + kw.2)
    let t2 := w32 (bigSigma0 a + maj)
    [w32 (t1 + t2), a, b, c, w32 (d + t1), e, f, g]
  | _ => st

/-- Compress one 64-byte block into the running hash state. -/
def compressBlock (h : List Nat) (block : List Nat) : List Nat :=
  let ws := extendSchedule (toWords block)
  let st := (shaK.zip ws).foldl compressRound h
  (h.zip st).map (fun p => w32 (p.1 + p.2))

/-- SHA-256 digest of a byte list, as eight 32-bit words. -/
def sha256Words (msg : List Nat) : List Nat :=
  (chunks64 (padMessage msg)).foldl compressBlock shaH0

/-- Lower-case hex digit for a nibble. -/
def hexChar (n : Nat) : Char := if n < 10 then Char.ofNat (48 + n) else Char.ofNat (87 + n)

/-- Fixed-width 8-digit hex rendering of a 32-bit word. -/
def toHex8 (n : Nat) : List Char := (List.range 8).map (fun i => hexChar ((n >>> (28 - 4 * i)) % 16))

/-- Bytes of an ASCII string (Char code = byte value on the inputs used). -/
def strBytes (s : String) : List Nat := s.data.map Char.toNat

/-- SHA-256 of a string rendered as the 64-character lower-case hex digest,
mirroring Go's `fmt.Sprintf("%x", h.Sum(nil))`. -/
def sha256Hex (s : String) : String :=
  String.mk ((sha256Words (strBytes s)).foldl (fun acc w => acc ++ toHex8 w) [])

/-! ## Go `encoding/json` marshaling of the model structs

Field order is Go struct declaration order; `omitempty` fields are dropped
when empty; map keys are emitted in sorted order, as Go does. The strings
marshaled here contain no characters that Go's encoder escapes. -/

/-- JSON string quoting (inputs contain no characters needing escapes). -/
def quoteStr (s : String) : String := "\"" ++ s ++ "\""

/-- Marshal one JSON value. -/
def JVal.marshal : JVal → String
  | .str s => quoteStr s
  | .bool b => if b then "true" else "false"

/-- Lexicographic order on code-point lists (byte order for ASCII). -/
def charListLt : List Nat → List Nat → Bool
  | [], [] => false
  | [], _ :: _ => true
  | _ :: _, [] => false
  | a :: as1, b :: bs1 => if a < b then true else if b < a then false else charListLt as1 bs1

/-- Go's byte-wise string order used by `json.Marshal` map-key sorting
(all keys here are ASCII, where bytes and code points coincide). -/
def strLt (a b : String) : Bool := charListLt (a.data.map Char.toNat) (b.data.map Char.toNat)

/-- Insert a key/value pair into a key-sorted association list. -/
def insertSorted (kv : String × JVal) : List (String × JVal) → List (String × JVal)
  | [] => [kv]
  | kv0 :: rest => if strLt kv.1 kv0.1 then kv :: kv0 :: rest else kv0 :: insertSorted kv rest

/-- Sort map entries by key (Go marshals maps with sorted keys). -/
def sortByKey (kvs : List (String × JVal)) : List (String × JVal) :=
  kvs.foldl (fun acc kv => insertSorted kv acc) []

/-- Comma-join rendered JSON members. -/
def joinComma : List String → String
  | [] => ""
  | [s] => s
  | s :: rest => s ++ "," ++ joinComma rest

/-- Marshal a data map: sorted keys, `"k":v` members. -/
def marshalMap (kvs : List (String × JVal)) : String :=
  "\x7b" ++ joinComma ((sortByKey kvs).map (fun kv => quoteStr kv.1 ++ ":" ++ kv.2.marshal)) ++ "\x7d"

/-- Marshal a `Target`: `targetType` and `targetDescriptor` always present,
`lookupKey`/`lookupValue` carry `omitempty`. -/
def marshalTarget (t : Target) : String :=
  "\x7b" ++ "\"targetType\":" ++ quoteStr t.targetType ++
  ",\"targetDescriptor\":" ++ quoteStr t.targetDescriptor ++
  (if t.lookupKey = "" then "" else ",\"lookupKey\":" ++ quoteStr t.lookupKey) ++
  (if t.lookupValue = "" then "" else ",\"lookupValue\":" ++ quoteStr t.lookupValue) ++
  "\x7d"

/-- Marshal an `Action`: fields in declaration order `actionType`, `target`,
`signature` (omitempty), `data` (omitempty: nil or empty map dropped). -/
def marshalAction (a : Action) : String :=
  "\x7b" ++ "\"actionType\":" ++ quoteStr a.actionType ++
  ",\"target\":" ++ marshalTarget a.target ++
  (if a.signature = "" then "" else ",\"signature\":" ++ quoteStr a.signature) ++
  (match a.data with
   | none => ""
   | some [] => ""
   | some kvs => ",\"data\":" ++ marshalMap kvs) ++
  "\x7d"

/-- Marshal the action array. Go renders a nil slice as `null`; the model
identifies nil and empty slices, and every concrete hash evaluated below
uses a non-empty list, where the two agree. -/
def marshalActions (l : List Action) : String :=
  "[" ++ joinComma (l.map marshalAction) ++ "]"

/-- Marshal an `RFC`: `actions`, then `signature` and `identifier`, both
`omitempty`. -/
def marshalRFC (r : RFC) : String :=
  "\x7b" ++ "\"actions\":" ++ marshalActions r.actions ++
  (if r.signature = "" then "" else ",\"signature\":" ++ quoteStr r.signature) ++
  (if r.identifier = "" then "" else ",\"identifier\":" ++ quoteStr r.identifier) ++
  "\x7d"

/-! ## Ledger operations (src/models/base.go) -/

/-- `Action.ToSha` (base.go:240): SHA-256 hex of the action's JSON
serialization, as the action currently stands. The Go error return fires
only on marshal failure, impossible for the representable values, so the
model is total. -/
def Action.toSha (a : Action) : String := sha256Hex (marshalAction a)

/-- `RFC.ToSha` (base.go:68): SHA-256 hex of the RFC's JSON serialization. -/
def RFC.toSha (r : RFC) : String := sha256Hex (marshalRFC r)

/-- `RFC.AddAction` (base.go:104): hash the given action as-is, stamp the
hash into its `Signature`, and append it to the action list. The RFC's own
`Signature` field is not touched. -/
def signAction (a : Action) : Action := { a with signature := Action.toSha a }

/-- `RFC.AddAction` (base.go:104), restated: append the signed action. -/
def RFC.addAction (rfc : RFC) (action : Action) : RFC :=
  { rfc with actions := rfc.actions ++ [signAction action] }

/-- `RFC.AddPersistentActions` (base.go:93): append every action of the old
RFC whose `actionType` is `comment`, in order, unchanged. -/
def RFC.addPersistentActions (rfc oldRFC : RFC) : RFC :=
  oldRFC.actions.foldl (fun r action =>
    if action.actionType = CommentAction then { r with actions := r.actions ++ [action] } else r) rfc

/-- Go map assignment `m[k] = v`: replace the entry if the key exists,
otherwise add it. -/
def mapSet (kvs : List (String × JVal)) (k : String) (v : JVal) : List (String × JVal) :=
  match kvs with
  | [] => [(k, v)]
  | (k0, v0) :: rest => if k0 = k then (k, v) :: rest else (k0, v0) :: mapSet rest k v

/-- Result of the search-and-update loop inside `RFC.UpdateLoadStatus`. -/
inductive LoadUpdateResult where
  | panicked
  | updated (acts : List Action)
  | notFound
deriving DecidableEq

/-- The in-place rewrite of the found `load` action (base.go:207-213):
write `data.status` and `data.requester` into its data map, then re-hash —
the hash is taken while the action still carries its old signature — and
stamp the new hash. -/
def updatedLoadAction (a : Action) (kvs : List (String × JVal)) (status requester : String) :
    Action :=
  let kvs1 := mapSet (mapSet kvs LoadStatus (.str status)) LoadRequester (.str requester)
  let a1 : Action := { a with data := some kvs1 }
  { a1 with signature := Action.toSha a1 }

/-- The loop of `RFC.UpdateLoadStatus` (base.go:205-216): find the first
`load` action and rewrite it in place (a Go panic if its data map is nil,
modelled as `panicked`). -/
def updateLoadActions (status requester : String) : List Action → LoadUpdateResult
  | [] => .notFound
  | a :: rest =>
    if a.actionType = LoadAction then
      match a.data with
      | none => .panicked
      | some kvs => .updated (updatedLoadAction a kvs status requester :: rest)
    else
      match updateLoadActions status requester rest with
      | .panicked => .panicked
      | .updated rest1 => .updated (a :: rest1)
      | .notFound => .notFound

/-- The fresh `load` action built when none exists yet (base.go:219-220). -/
def newLoadAction (status requester : String) : Action :=
  { actionType := LoadAction, target := ⟨"", "", "", ""⟩, signature := "",
    data := some [(LoadStatus, .str status), (LoadRequester, .str requester)] }

/-- `RFC.UpdateLoadStatus` (base.go:199): update the existing `load` action
in place if one exists, else append a fresh `load` action carrying the
status and requester. `none` models the Go panic on a nil data map. -/
def RFC.updateLoadStatus (rfc : RFC) (status requester : String) : Option RFC :=
  match updateLoadActions status requester rfc.actions with
  | .panicked => none
  | .updated acts => some { rfc with actions := acts }
  | .notFound => some (rfc.addAction (newLoadAction status requester))

/-! ## `RFC.AddComments` (base.go:125-195)

The Go code groups freshly built comment actions in a `processed` map keyed
by target signature, then flushes every group through `AddAction`. Go map
iteration order is unspecified; the model keeps the groups in insertion
order, and every property proved below is insensitive to group order. -/

/-- First-match association-list lookup (Go map read). -/
def lookupKeyList {β : Type} (key : String) : List (String × β) → Option β
  | [] => none
  | (k, v) :: rest => if k = key then some v else lookupKeyList key rest

/-- Go `processed[key] = append(processed[key], a)`: extend the group for
`key`, creating it at the end if absent. -/
def appendProcessed (p : List (String × List Action)) (key : String) (a : Action) :
    List (String × List Action) :=
  match p with
  | [] => [(key, [a])]
  | (k, acts) :: rest =>
    if k = key then (k, acts ++ [a]) :: rest else (k, acts) :: appendProcessed rest key a

/-- The comment action built in the first loop of `AddComments`
(base.go:138-149): targets the matched action by signature. -/
def commentActionFor (sig cmt commenter : String) : Action :=
  { actionType := CommentAction,
    target := ⟨ActionTarget, "", SignatureLookupKey, sig⟩,
    signature := "",
    data := some [(CommentData, .str cmt), (CommenterData, .str commenter)] }

/-- Diagnostic note text for a dangling comment target (base.go:176). -/
def noteText (targetSig : String) : String :=
  "Target with signature " ++ targetSig ++ " was not found in this RFC"

/-- The comment action built in the second loop of `AddComments`
(base.go:161-178): targets the RFC itself; a dangling target signature
additionally gets a `note` entry written into the data map. -/
def rfcCommentFor (rfc : RFC) (targetSig cmt commenter : String) : Action :=
  let kvs := [(CommentData, JVal.str cmt), (CommenterData, JVal.str commenter)]
  { actionType := CommentAction,
    target := ⟨RfcTarget, "", SignatureLookupKey, rfc.signature⟩,
    signature := "",
    data := some (if targetSig = rfc.signature then kvs
                  else mapSet kvs NoteData (.str (noteText targetSig))) }

/-- First loop of `AddComments` (base.go:135-154): walk the RFC's actions;
for every action whose signature is a comment key, group one comment action
per comment string under that signature. -/
def addCommentsPhase1 (rfc : RFC) (comments : List (String × List String)) (commenter : String) :
    List (String × List Action) :=
  rfc.actions.foldl (fun p action =>
    match lookupKeyList action.signature comments with
    | some cmts =>
      cmts.foldl (fun p cmt =>
        appendProcessed p action.signature (commentActionFor action.signature cmt commenter)) p
    | none => p) []

/-- Second loop of `AddComments` (base.go:157-183): every comment target
with no group yet becomes RFC-targeted comment actions, with a dangling
note when the target is not the RFC's own signature. -/
def addCommentsPhase2 (rfc : RFC) (comments : List (String × List String)) (commenter : String)
    (p : List (String × List Action)) : List (String × List Action) :=
  comments.foldl (fun p tc =>
    match lookupKeyList tc.1 p with
    | some _ => p
    | none =>
      tc.2.foldl (fun p cmt => appendProcessed p tc.1 (rfcCommentFor rfc tc.1 cmt commenter)) p) p

/-- `RFC.AddComments` (base.go:125): build the groups, then flush every
grouped comment through `AddAction`. -/
def RFC.addComments (rfc : RFC) (comments : List (String × List String)) (commenter : String) :
    RFC :=
  let p := addCommentsPhase2 rfc comments commenter (addCommentsPhase1 rfc comments commenter)
  p.foldl (fun r group => group.2.foldl (fun r c => r.addAction c) r) rfc

/-! ## Workflow orchestrator (src/controllers/controller.go)

The Repository Backend is a structure of pure oracles; each orchestration
returns the list of backend calls it performed together with its result,
so "no backend side effects" and "compensation ran" are statable. Pull
requests are opaque `Nat` handles. `getRFCContents` folds the content
fetch and the JSON unmarshal of the stored RFC into one oracle whose
error covers both failure modes. -/

/-- git/definition.go constant. -/
def BASE_BRANCH : String := "main"

/-- git/definition.go constant. -/
def APPROVE_REVIEW_TYPE : String := "APPROVE"

/-- git/definition.go constant. -/
def REQUEST_CHANGES_REVIEW_TYPE : String := "REQUEST_CHANGES"

/-- git/definition.go constant. -/
def COMMENT_REVIEW_TYPE : String := "COMMENT"

/-- git/definition.go constant. -/
def MERGEABILITY_CLEAN_STATE : String := "clean"

/-- git/definition.go constant. -/
def MERGEABILITY_PENDING_STATE : String := "pending"

/-- git/definition.go constant. -/
def MERGEABILITY_UNKNOWN_STATE : String := "unknown"

/-- git/definition.go constant. -/
def MERGEABILITY_RETRY_COUNT : Nat := 3

/-- models/route.go `Review` request body. -/
structure Review where
  rfcIdentifier : String
  type : String
  topLevelComment : String
  comments : List (String × List String)
  loadOnApproval : Bool
deriving DecidableEq

/-- One performed Repository Backend call, for side-effect bookkeeping. -/
inductive GitCall where
  | createBranch (branch base : String)
  | deleteBranch (branch : String)
  | createFile (branch dir : String) (data : RFC)
  | createPullRequest (branch base : String)
  | getPullRequest (branch : String)
  | getUserLogin
  | getRFCContents (branch : String)
  | updateFile (pr : Nat) (data : RFC)
  | createReview (pr : Nat)
  | spawnLoadAndMerge (pr : Nat)
deriving DecidableEq

/-- The Git backend as pure result oracles (git/definition.go interface). -/
structure Git where
  createBranch : String → String → Except String Unit
  deleteBranch : String → Except String Unit
  createFile : String → String → RFC → Except String Unit
  createPullRequest : String → String → Except String Unit
  getPullRequest : String → Except String Nat
  getUserLogin : Except String String
  getRFCContents : String → Except String RFC
  updateFile : Nat → RFC → Except String Unit
  createReview : Nat → Except String Unit

/-- The action-signing loop at the top of `SubmitRequest`
(controller.go:122-128): stamp each action with its own hash, taken from
the action exactly as submitted. -/
def signActions (l : List Action) : List Action := l.map signAction

/-- `SubmitRequest` (controller.go:115-164). The fresh branch identifier
(Go `CreateRFCIdentifier`) is passed in as `branch`. The RFC hash is taken
over the incoming data before the action signatures are stamped, exactly
as the Go code orders it. On a file-write or PR-open failure the branch is
deleted (its own result only logged) and the original error returned. -/
def submitSigned (data : RFC) : RFC :=
  { data with signature := RFC.toSha data, actions := signActions data.actions }

/-- Branch/file/PR sequencing of `SubmitRequest`. -/
def SubmitRequest (git : Git) (branch : String) (data : RFC) :
    List GitCall × Except String String :=
  let signed : RFC := submitSigned data
  match git.createBranch branch BASE_BRANCH with
  | .error e => ([.createBranch branch BASE_BRANCH], .error e)
  | .ok _ =>
    match git.createFile branch branch signed with
    | .error e =>
      ([.createBranch branch BASE_BRANCH, .createFile branch branch signed,
        .deleteBranch branch], .error e)
    | .ok _ =>
      match git.createPullRequest branch BASE_BRANCH with
      | .error e =>
        ([.createBranch branch BASE_BRANCH, .createFile branch branch signed,
          .createPullRequest branch BASE_BRANCH, .deleteBranch branch], .error e)
      | .ok _ =>
        ([.createBranch branch BASE_BRANCH, .createFile branch branch signed,
          .createPullRequest branch BASE_BRANCH], .ok branch)

/-- ASCII lowercase, Go `strings.ToLower` on the review-type strings. -/
def toLowerString (s : String) : String := String.mk (s.data.map Char.toLower)

/-- The validation error of `ReviewRequest` (controller.go:233). -/
def reviewValidationError (t : String) : String :=
  "Review of type " ++ t ++ " must include a top level comment or inline comments"

/-- The review-recording action built inside `ReviewRequest`
(controller.go:272-291): the data key is `ReviewerData`, switched to
`CommentData` for plain-comment reviews; the top-level comment text is
then written under key "comment" when present. -/
def mkReviewAction (rfc : RFC) (ty login topLevelComment : String) : Action :=
  let identifier := if ty = COMMENT_REVIEW_TYPE then CommentData else ReviewerData
  let d0 := [(identifier, JVal.str login)]
  let d1 := if topLevelComment = "" then d0 else mapSet d0 ("comment") (.str topLevelComment)
  { actionType := toLowerString ty,
    target := ⟨RfcTarget, "", SignatureLookupKey, rfc.signature⟩,
    signature := "",
    data := some d1 }

/-- `ReviewRequest` (controller.go:229-326). Validation runs before any
backend call. The review-recording action is skipped exactly when the
review is a plain comment with no top-level text (the Go guard is the
contrapositive `Type != COMMENT || TopLevelComment != ""`). The Go success
messages wrap the type in quote characters and extra whitespace; the
model keeps their informative text. -/
def ReviewRequest (git : Git) (data : Review) : List GitCall × Except String String :=
  if (data.type = COMMENT_REVIEW_TYPE ∨ data.type = REQUEST_CHANGES_REVIEW_TYPE) ∧
      data.topLevelComment = "" ∧ data.comments = [] then
    ([], .error (reviewValidationError data.type))
  else
    let c1 : List GitCall := [.getPullRequest data.rfcIdentifier]
    match git.getPullRequest data.rfcIdentifier with
    | .error e => (c1, .error e)
    | .ok pr =>
      let c2 := c1 ++ [GitCall.getUserLogin]
      match git.getUserLogin with
      | .error e => (c2, .error e)
      | .ok login =>
        let c3 := c2 ++ [GitCall.getRFCContents data.rfcIdentifier]
        match git.getRFCContents data.rfcIdentifier with
        | .error e => (c3, .error e)
        | .ok rfc0 =>
          let rfc1 := rfc0.addComments data.comments login
          let rfc2 := if data.type = COMMENT_REVIEW_TYPE ∧ data.topLevelComment = "" then rfc1
                      else rfc1.addAction (mkReviewAction rfc1 data.type login data.topLevelComment)
          let c4 := c3 ++ [GitCall.updateFile pr rfc2]
          match git.updateFile pr rfc2 with
          | .error e => (c4, .error e)
          | .ok _ =>
            let c5 := c4 ++ [GitCall.createReview pr]
            match git.createReview pr with
            | .error e => (c5, .error e)
            | .ok _ =>
              if data.type = APPROVE_REVIEW_TYPE ∧ data.loadOnApproval then
                (c5 ++ [GitCall.spawnLoadAndMerge pr],
                 .ok ("Successfully approved RFC " ++ data.rfcIdentifier ++
                      ". A load request was submitted. You may query the load status through the /status endpoint."))
              else
                (c5, .ok ("Successfully reviewed RFC " ++ data.rfcIdentifier ++
                          " with type of " ++ data.type))

/-! ## Mergeability poller (github.go:397-471) -/

/-- Backend oracles for the two polling loops of `GetMergeability`: the
state of the i-th `GetCombinedStatus` call and the `MergeableState` of the
i-th pull-request refetch. `none` inside `.ok` models a nil state pointer. -/
structure MergeabilityEnv where
  combinedStatus : Nat → Except String (Option String)
  prMergeableState : Nat → Except String (Option String)

/-- First loop (github.go:411-432): poll the combined status up to the
retry bound, continuing only while the state is non-nil and "pending". -/
def pollCombined (env : MergeabilityEnv) : Nat → Nat → Except String Unit
  | _, 0 => .ok ()
  | i, Nat.succ fuel =>
    match env.combinedStatus i with
    | .error e => .error e
    | .ok st =>
      if st = some MERGEABILITY_PENDING_STATE then pollCombined env (i + 1) fuel else .ok ()

/-- Second loop (github.go:439-460): refetch the pull request up to the
retry bound, continuing while the mergeable state is nil or "unknown"; the
final fetch's state is what the surrounding code inspects. -/
def pollMergeable (env : MergeabilityEnv) : Nat → Nat → Option String → Except String (Option String)
  | _, 0, last => .ok last
  | i, Nat.succ fuel, _ =>
    match env.prMergeableState i with
    | .error e => .error e
    | .ok st =>
      if st = none ∨ st = some MERGEABILITY_UNKNOWN_STATE then pollMergeable env (i + 1) fuel st
      else .ok st

/-- The error returned when mergeability stays undetermined (github.go:464). -/
def mergeabilityUndeterminableError : String := "unable to determine mergeability of rfc"

/-- `GetMergeability` (github.go:397-471): after both polling loops, error
out if the state is still nil or "unknown", otherwise report whether the
state equals the clean state. -/
def GetMergeability (env : MergeabilityEnv) : Except String Bool :=
  match pollCombined env 0 MERGEABILITY_RETRY_COUNT with
  | .error e => .error e
  | .ok _ =>
    match pollMergeable env 0 MERGEABILITY_RETRY_COUNT none with
    | .error e => .error e
    | .ok st =>
      if st = none ∨ st = some MERGEABILITY_UNKNOWN_STATE then
        .error mergeabilityUndeterminableError
      else if st = some MERGEABILITY_CLEAN_STATE then .ok true else .ok false

/-! ## Concrete fixtures, taken from the repository's controller tests -/

set_option maxRecDepth 1000000

/-- The `add` action submitted in `TestSubmitRequest` (controller_test.go). -/
def fixtureAddAction : Action :=
  { actionType := AddActionType, target := ⟨ItemTarget, "entity", "", ""⟩,
    signature := "", data := some [("id", JVal.str ("123"))] }

/-- The RFC wrapping `fixtureAddAction`, as submitted in the tests. -/
def fixtureRFC : RFC := { actions := [fixtureAddAction], signature := "", identifier := "" }

/-- The comment action parsed from stored content in `TestUpdateRequest`. -/
def fixtureStoredComment : Action :=
  { actionType := CommentAction, target := ⟨"", "", "", ""⟩,
    signature := "", data := some [("test", JVal.bool true)] }

/-- Validation: the embedding reproduces the action signature asserted by
the repository's own `TestSubmitRequest` fixture. -/
theorem embedding_matches_test_action_signature :
    Action.toSha fixtureAddAction =
      "49991c32fc001d99b9c5908005509686aff6ba7d16a14cd3ecaebc5d6d916cf0" := by
  decide

/-- Validation: the embedding reproduces the RFC signature asserted by the
repository's own `TestSubmitRequest` fixture. -/
theorem embedding_matches_test_rfc_signature :
    RFC.toSha fixtureRFC =
      "7fe5c325b99df102515c1f8d5e1cdde084dc9beabec4a346f07dcd90d4ddb4b1" := by
  decide

/-- Validation: the embedding reproduces the RFC signature asserted by the
repository's own `TestUpdateRequest` fixture (carried comment action). -/
theorem embedding_matches_test_update_signature :
    RFC.toSha { actions := [fixtureStoredComment], signature := "", identifier := "" } =
      "a02e316df3bc6f8b3da979fd5cdb5c070962fc03c8fbd46345a7eac682a26f0a" := by
  decide

/-- Validation-style staging: the stored comment action's content hash as
a literal, shared by the concrete C2 evaluations. -/
theorem embedding_stored_comment_sha :
    Action.toSha fixtureStoredComment =
      "832fd5a2d12eb39e3b9d8a1cdbb28b387b78e267c5b15a658431df9a2d0dcc25" := by decide

/-! ## Shared structural lemmas about the ledger operations -/

/-- A non-empty string has positive length. -/
theorem length_pos_of_ne_empty {s : String} (hs : s ≠ "") : 0 < s.length := by
  rcases s with ⟨l⟩
  cases l with
  | nil => exact absurd rfl hs
  | cons c l => simp [String.length]

/-- Appending an action neither changes the RFC signature nor its identifier,
and extends the action list by the signed action. -/
theorem addAction_eq (rfc : RFC) (a : Action) :
    rfc.addAction a = { rfc with actions := rfc.actions ++ [signAction a] } := rfl

/-- Folding `AddAction` over a list appends the signed actions. -/
theorem foldl_addAction_eq (cs : List Action) (r : RFC) :
    cs.foldl (fun r c => r.addAction c) r = { r with actions := r.actions ++ cs.map signAction } := by
  induction cs generalizing r with
  | nil => simp
  | cons c cs ih =>
    rw [List.foldl_cons, ih]
    simp [RFC.addAction, List.append_assoc]

/-- Flushing the grouped comment actions appends their signed flattening. -/
theorem flush_groups_eq (p : List (String × List Action)) (r : RFC) :
    p.foldl (fun r g => g.2.foldl (fun r c => r.addAction c) r) r
      = { r with actions := r.actions ++ (p.flatMap Prod.snd).map signAction } := by
  induction p generalizing r with
  | nil => simp
  | cons g p ih =>
    rw [List.foldl_cons, ih, foldl_addAction_eq]
    simp [List.append_assoc, List.flatMap_cons]

/-- `AddComments` only appends actions: signature and identifier survive. -/
theorem addComments_eq (rfc : RFC) (cs : List (String × List String)) (u : String) :
    rfc.addComments cs u
      = { rfc with actions := rfc.actions ++ ((addCommentsPhase2 rfc cs u (addCommentsPhase1 rfc cs u)).flatMap Prod.snd).map signAction } := by
  simp [RFC.addComments, flush_groups_eq]

/-! ## Association-list and grouping lemmas for `AddComments` -/

/-- A lookup misses exactly when the key is not among the stored keys. -/
theorem lookupKeyList_eq_none {β : Type} (k : String) (p : List (String × β)) :
    lookupKeyList k p = none ↔ k ∉ p.map Prod.fst := by
  induction p with
  | nil => simp [lookupKeyList]
  | cons kv rest ih =>
    by_cases h : kv.1 = k
    · simp [lookupKeyList, h]
    · simp [lookupKeyList, h, ih, Ne.symm h]

/-- Lookup over an append tries the left list first. -/
theorem lookupKeyList_append {β : Type} (k : String) (p q : List (String × β)) :
    lookupKeyList k (p ++ q)
      = match lookupKeyList k p with
        | some v => some v
        | none => lookupKeyList k q := by
  induction p with
  | nil => simp [lookupKeyList]
  | cons kv rest ih =>
    by_cases h : kv.1 = k
    · simp [lookupKeyList, h]
    · simp [lookupKeyList, h, ih]

/-- In a key-nodup association list, membership determines the lookup. -/
theorem lookupKeyList_of_mem {β : Type} {p : List (String × β)}
    (hnd : (p.map Prod.fst).Nodup) {k : String} {v : β} (h : (k, v) ∈ p) :
    lookupKeyList k p = some v := by
  induction p with
  | nil => simp at h
  | cons kv rest ih =>
    simp only [List.map_cons, List.nodup_cons] at hnd
    rcases List.mem_cons.mp h with heq | hm
    · rw [← heq]
      simp [lookupKeyList]
    · have hk : kv.1 ≠ k := fun hc => hnd.1 (hc.symm ▸ List.mem_map_of_mem Prod.fst hm)
      simp only [lookupKeyList, if_neg hk]
      exact ih hnd.2 hm

/-- Appending under a fresh key creates a new group at the end. -/
theorem appendProcessed_fresh (p : List (String × List Action)) (k : String) (a : Action)
    (h : lookupKeyList k p = none) : appendProcessed p k a = p ++ [(k, [a])] := by
  induction p with
  | nil => simp [appendProcessed]
  | cons kv rest ih =>
    rcases kv with ⟨k0, acts⟩
    simp only [lookupKeyList] at h
    by_cases hk : k0 = k
    · rw [if_pos hk] at h
      exact absurd h (by simp)
    · rw [if_neg hk] at h
      simp [appendProcessed, hk, ih h]

/-- Appending under the key of the trailing group extends that group. -/
theorem appendProcessed_last (p : List (String × List Action)) (k : String)
    (acc : List Action) (x : Action) (h : lookupKeyList k p = none) :
    appendProcessed (p ++ [(k, acc)]) k x = p ++ [(k, acc ++ [x])] := by
  induction p with
  | nil => simp [appendProcessed]
  | cons kv rest ih =>
    rcases kv with ⟨k0, acts⟩
    simp only [lookupKeyList] at h
    by_cases hk : k0 = k
    · rw [if_pos hk] at h
      exact absurd h (by simp)
    · rw [if_neg hk] at h
      simp [appendProcessed, hk, ih h]

/-- Folding appends of one key over a list of builders grows that key's
trailing group by the mapped builders, in order. -/
theorem foldl_appendProcessed_aux (k : String) (f : String → Action) :
    ∀ (cs : List String) (p : List (String × List Action)) (acc : List Action),
      lookupKeyList k p = none →
      cs.foldl (fun p c => appendProcessed p k (f c)) (p ++ [(k, acc)])
        = p ++ [(k, acc ++ cs.map f)] := by
  intro cs
  induction cs with
  | nil => intro p acc _; simp
  | cons c cs ih =>
    intro p acc h
    rw [List.foldl_cons, appendProcessed_last p k acc (f c) h, ih p (acc ++ [f c]) h]
    simp

/-- Folding appends of one fresh key over a non-empty list of builders
creates exactly one new trailing group holding the mapped builders. -/
theorem foldl_appendProcessed (k : String) (f : String → Action) (cs : List String)
    (p : List (String × List Action)) (h : lookupKeyList k p = none) (hcs : cs ≠ []) :
    cs.foldl (fun p c => appendProcessed p k (f c)) p = p ++ [(k, cs.map f)] := by
  cases cs with
  | nil => exact absurd rfl hcs
  | cons c cs =>
    rw [List.foldl_cons, appendProcessed_fresh p k (f c) h,
      foldl_appendProcessed_aux k f cs p [f c] h]
    simp

/-- The groups the first loop of `AddComments` builds, characterized: one
group per action whose signature is a comment key with a non-empty comment
list, keyed by that signature, in action order. -/
def phase1Groups (actions : List Action) (comments : List (String × List String))
    (commenter : String) : List (String × List Action) :=
  actions.filterMap (fun a =>
    match lookupKeyList a.signature comments with
    | none => none
    | some [] => none
    | some cmts => some (a.signature, cmts.map (fun c => commentActionFor a.signature c commenter)))

/-- The groups the second loop adds on top of `p`: one per comment target
with no group in `p` and a non-empty comment list, in comment order. -/
def phase2Groups (rfc : RFC) (comments : List (String × List String)) (commenter : String)
    (p : List (String × List Action)) : List (String × List Action) :=
  comments.filterMap (fun tc =>
    match lookupKeyList tc.1 p with
    | some _ => none
    | none =>
      if tc.2 = [] then none
      else some (tc.1, tc.2.map (fun c => rfcCommentFor rfc tc.1 c commenter)))

/-- The first loop of `AddComments` computes `phase1Groups`, appended to the
starting accumulator, whenever the action signatures are distinct and all
fresh for the accumulator. -/
theorem phase1_aux (comments : List (String × List String)) (commenter : String) :
    ∀ (acts : List Action) (p : List (String × List Action)),
      (acts.map Action.signature).Nodup →
      (∀ a ∈ acts, lookupKeyList a.signature p = none) →
      acts.foldl (fun p action =>
        match lookupKeyList action.signature comments with
        | some cmts =>
          cmts.foldl (fun p cmt =>
            appendProcessed p action.signature (commentActionFor action.signature cmt commenter)) p
        | none => p) p
      = p ++ phase1Groups acts comments commenter := by
  intro acts
  induction acts with
  | nil => intro p _ _; simp [phase1Groups]
  | cons a acts ih =>
    intro p hnd hfresh
    simp only [List.map_cons, List.nodup_cons] at hnd
    rw [List.foldl_cons]
    cases hlk : lookupKeyList a.signature comments with
    | none =>
      show List.foldl _ p acts = _
      rw [ih p hnd.2 (fun b hb => hfresh b (List.mem_cons_of_mem a hb))]
      simp [phase1Groups, List.filterMap_cons, hlk]
    | some cmts =>
      cases cmts with
      | nil =>
        show List.foldl _ p acts = _
        rw [ih p hnd.2 (fun b hb => hfresh b (List.mem_cons_of_mem a hb))]
        simp [phase1Groups, List.filterMap_cons, hlk]
      | cons c0 cs0 =>
        show List.foldl _ ((c0 :: cs0).foldl (fun p cmt =>
          appendProcessed p a.signature (commentActionFor a.signature cmt commenter)) p) acts = _
        rw [foldl_appendProcessed a.signature _ (c0 :: cs0) p
          (hfresh a (List.mem_cons_self a acts)) (by simp)]
        have hfresh1 : ∀ b ∈ acts, lookupKeyList b.signature
            (p ++ [(a.signature, (c0 :: cs0).map
              (fun c => commentActionFor a.signature c commenter))]) = none := by
          intro b hb
          rw [lookupKeyList_append, hfresh b (List.mem_cons_of_mem a hb)]
          have hne2 : ¬ (a.signature = b.signature) := fun hc =>
            hnd.1 (by rw [hc]; exact List.mem_map_of_mem Action.signature hb)
          simp [lookupKeyList, hne2]
        rw [ih _ hnd.2 hfresh1]
        simp [phase1Groups, List.filterMap_cons, hlk, List.append_assoc]

/-- Adding a group under a key foreign to `cl` does not change the phase-2
groups computed against the accumulator. -/
theorem phase2Groups_append_group (rfc : RFC) (cl : List (String × List String))
    (commenter : String) (p : List (String × List Action)) (k : String) (g : List Action)
    (h : ∀ tc ∈ cl, tc.1 ≠ k) :
    phase2Groups rfc cl commenter (p ++ [(k, g)]) = phase2Groups rfc cl commenter p := by
  induction cl with
  | nil => simp [phase2Groups]
  | cons tc cl ih =>
    have hk : ¬ (k = tc.1) := fun hc => h tc (List.mem_cons_self tc cl) hc.symm
    have hrest : ∀ tc1 ∈ cl, tc1.1 ≠ k := fun tc1 h1 => h tc1 (List.mem_cons_of_mem tc h1)
    have hlk1 : lookupKeyList tc.1 (p ++ [(k, g)]) = lookupKeyList tc.1 p := by
      rw [lookupKeyList_append]
      cases hl : lookupKeyList tc.1 p with
      | some v => rfl
      | none => simp [lookupKeyList, hk]
    simp only [phase2Groups, List.filterMap_cons] at ih ⊢
    rw [hlk1, ih hrest]

/-- The second loop of `AddComments` appends `phase2Groups` to the
accumulator whenever the comment keys are distinct. -/
theorem phase2_aux (rfc : RFC) (commenter : String) :
    ∀ (cl : List (String × List String)) (p : List (String × List Action)),
      (cl.map Prod.fst).Nodup →
      cl.foldl (fun p tc =>
        match lookupKeyList tc.1 p with
        | some _ => p
        | none =>
          tc.2.foldl (fun p cmt =>
            appendProcessed p tc.1 (rfcCommentFor rfc tc.1 cmt commenter)) p) p
      = p ++ phase2Groups rfc cl commenter p := by
  intro cl
  induction cl with
  | nil => intro p _; simp [phase2Groups]
  | cons tc cl ih =>
    intro p hnd
    simp only [List.map_cons, List.nodup_cons] at hnd
    rw [List.foldl_cons]
    cases hlk : lookupKeyList tc.1 p with
    | some v =>
      show List.foldl _ p cl = _
      rw [ih p hnd.2]
      simp [phase2Groups, List.filterMap_cons, hlk]
    | none =>
      cases hcs : tc.2 with
      | nil =>
        show List.foldl _ (List.foldl (fun p cmt =>
          appendProcessed p tc.1 (rfcCommentFor rfc tc.1 cmt commenter)) p []) cl = _
        rw [List.foldl_nil, ih p hnd.2]
        simp [phase2Groups, List.filterMap_cons, hlk, hcs]
      | cons c0 cs0 =>
        show List.foldl _ (List.foldl (fun p cmt =>
          appendProcessed p tc.1 (rfcCommentFor rfc tc.1 cmt commenter)) p (c0 :: cs0)) cl = _
        rw [foldl_appendProcessed tc.1 _ (c0 :: cs0) p hlk (by simp)]
        have hfr : ∀ tc1 ∈ cl, tc1.1 ≠ tc.1 := fun tc1 h1 hc =>
          hnd.1 (by rw [← hc]; exact List.mem_map_of_mem Prod.fst h1)
        rw [ih _ hnd.2]
        rw [phase2Groups_append_group rfc cl commenter p tc.1 _ hfr]
        simp [phase2Groups, List.filterMap_cons, hlk, hcs, List.append_assoc]

/-- The final `processed` structure of `AddComments`: the phase-1 groups
followed by the phase-2 groups, under distinct comment keys and distinct
action signatures. -/
theorem addComments_groups (rfc : RFC) (comments : List (String × List String))
    (commenter : String) (hk : (comments.map Prod.fst).Nodup)
    (ha : (rfc.actions.map Action.signature).Nodup) :
    addCommentsPhase2 rfc comments commenter (addCommentsPhase1 rfc comments commenter)
      = phase1Groups rfc.actions comments commenter
        ++ phase2Groups rfc comments commenter (phase1Groups rfc.actions comments commenter) := by
  unfold addCommentsPhase1 addCommentsPhase2
  rw [phase1_aux comments commenter rfc.actions [] ha (fun a _ => rfl), List.nil_append,
    phase2_aux rfc commenter comments (phase1Groups rfc.actions comments commenter) hk]

/-- The comment actions `AddComments` appends, as an explicit list. -/
def appendedComments (rfc : RFC) (comments : List (String × List String))
    (commenter : String) : List Action :=
  ((phase1Groups rfc.actions comments commenter
    ++ phase2Groups rfc comments commenter
        (phase1Groups rfc.actions comments commenter)).flatMap Prod.snd).map signAction

/-- `AddComments` appends exactly `appendedComments` (under distinct keys
and distinct action signatures). -/
theorem addComments_actions (rfc : RFC) (comments : List (String × List String))
    (commenter : String) (hk : (comments.map Prod.fst).Nodup)
    (ha : (rfc.actions.map Action.signature).Nodup) :
    (rfc.addComments comments commenter).actions
      = rfc.actions ++ appendedComments rfc comments commenter := by
  rw [addComments_eq]
  show rfc.actions ++ _ = _
  rw [addComments_groups rfc comments commenter hk ha]
  rfl

/-- Membership in the phase-1 groups, inverted. -/
theorem mem_phase1Groups {acts : List Action} {comments : List (String × List String)}
    {commenter : String} {g : String × List Action}
    (h : g ∈ phase1Groups acts comments commenter) :
    ∃ a ∈ acts, ∃ cmts, lookupKeyList a.signature comments = some cmts ∧ cmts ≠ [] ∧
      g = (a.signature, cmts.map (fun c => commentActionFor a.signature c commenter)) := by
  obtain ⟨a, ha, he⟩ := List.mem_filterMap.mp h
  refine ⟨a, ha, ?_⟩
  cases hlk : lookupKeyList a.signature comments with
  | none => rw [hlk] at he; exact absurd he (by simp)
  | some cmts =>
    cases cmts with
    | nil => rw [hlk] at he; exact absurd he (by simp)
    | cons c0 cs0 =>
      rw [hlk] at he
      change some ((a.signature, (c0 :: cs0).map
        (fun c => commentActionFor a.signature c commenter)) : String × List Action) = some g at he
      injection he with h2
      exact ⟨c0 :: cs0, rfl, by simp, h2.symm⟩

/-- Membership in the phase-2 groups, inverted. -/
theorem mem_phase2Groups {rfc : RFC} {comments : List (String × List String)}
    {commenter : String} {p : List (String × List Action)} {g : String × List Action}
    (h : g ∈ phase2Groups rfc comments commenter p) :
    ∃ tc ∈ comments, lookupKeyList tc.1 p = none ∧ tc.2 ≠ [] ∧
      g = (tc.1, tc.2.map (fun c => rfcCommentFor rfc tc.1 c commenter)) := by
  obtain ⟨tc, htc, he⟩ := List.mem_filterMap.mp h
  refine ⟨tc, htc, ?_⟩
  cases hlk : lookupKeyList tc.1 p with
  | some v => rw [hlk] at he; exact absurd he (by simp)
  | none =>
    rw [hlk] at he
    change (if tc.2 = [] then none else some ((tc.1, tc.2.map
      (fun c => rfcCommentFor rfc tc.1 c commenter)) : String × List Action)) = some g at he
    by_cases hcs : tc.2 = []
    · rw [if_pos hcs] at he
      exact absurd he (by simp)
    · rw [if_neg hcs] at he
      injection he with h2
      exact ⟨rfl, hcs, h2.symm⟩

/-- The phase-1 group keys form a sublist of the action signatures. -/
theorem phase1Groups_keys_sublist (acts : List Action) (comments : List (String × List String))
    (commenter : String) :
    ((phase1Groups acts comments commenter).map Prod.fst).Sublist
      (acts.map Action.signature) := by
  induction acts with
  | nil => simp [phase1Groups]
  | cons a acts ih =>
    cases hlk : lookupKeyList a.signature comments with
    | none =>
      simp only [phase1Groups, List.filterMap_cons, hlk, List.map_cons]
      exact ih.cons a.signature
    | some cmts =>
      cases cmts with
      | nil =>
        simp only [phase1Groups, List.filterMap_cons, hlk, List.map_cons]
        exact ih.cons a.signature
      | cons c0 cs0 =>
        simp only [phase1Groups, List.filterMap_cons, hlk, List.map_cons]
        exact ih.cons₂ a.signature

/-- The phase-2 group keys form a sublist of the comment keys. -/
theorem phase2Groups_keys_sublist (rfc : RFC) (comments : List (String × List String))
    (commenter : String) (p : List (String × List Action)) :
    ((phase2Groups rfc comments commenter p).map Prod.fst).Sublist
      (comments.map Prod.fst) := by
  induction comments with
  | nil => simp [phase2Groups]
  | cons tc cl ih =>
    cases hlk : lookupKeyList tc.1 p with
    | some v =>
      simp only [phase2Groups, List.filterMap_cons, hlk, List.map_cons]
      exact ih.cons tc.1
    | none =>
      by_cases hcs : tc.2 = []
      · simp only [phase2Groups, List.filterMap_cons, hlk, hcs, if_pos, List.map_cons]
        exact ih.cons tc.1
      · simp only [phase2Groups, List.filterMap_cons, hlk, if_neg hcs, List.map_cons]
        exact ih.cons₂ tc.1

/-- The combined group keys are distinct. -/
theorem groups_keys_nodup (rfc : RFC) (comments : List (String × List String))
    (commenter : String) (hk : (comments.map Prod.fst).Nodup)
    (ha : (rfc.actions.map Action.signature).Nodup) :
    ((phase1Groups rfc.actions comments commenter
      ++ phase2Groups rfc comments commenter
          (phase1Groups rfc.actions comments commenter)).map Prod.fst).Nodup := by
  rw [List.map_append, List.nodup_append]
  refine ⟨(phase1Groups_keys_sublist rfc.actions comments commenter).nodup ha,
    (phase2Groups_keys_sublist rfc comments commenter _).nodup hk, ?_⟩
  intro k hk1 hk2
  obtain ⟨g, hg, hgk⟩ := List.mem_map.mp hk2
  obtain ⟨tc, _, hnone, _, hgeq⟩ := mem_phase2Groups hg
  rw [hgeq] at hgk
  rw [← hgk] at hk1
  exact (lookupKeyList_eq_none tc.1 _).mp hnone hk1

/-- Counting over the flattened groups sums the per-group counts. -/
theorem countP_flatMap_eq_zero (gs : List (String × List Action)) (p : Action → Bool)
    (h : ∀ g ∈ gs, ∀ x ∈ g.2, p x = false) : (gs.flatMap Prod.snd).countP p = 0 := by
  rw [List.countP_eq_zero]
  intro x hx
  obtain ⟨g, hg, hxg⟩ := List.mem_flatMap.mp hx
  simp [h g hg x hxg]

/-- When the predicate can only hold inside the group keyed like `g0`, the
flattened count is `g0`'s count. -/
theorem countP_flatMap_single (p : Action → Bool) (g0 : String × List Action) :
    ∀ gs : List (String × List Action), g0 ∈ gs → ((gs.map Prod.fst).Nodup) →
      (∀ g ∈ gs, g.1 ≠ g0.1 → ∀ x ∈ g.2, p x = false) →
      (gs.flatMap Prod.snd).countP p = g0.2.countP p := by
  intro gs
  induction gs with
  | nil => intro hmem _ _; simp at hmem
  | cons g gs ih =>
    intro hmem hnd hothers
    simp only [List.map_cons, List.nodup_cons] at hnd
    rw [List.flatMap_cons, List.countP_append]
    rcases List.mem_cons.mp hmem with heq | hmem1
    · have hz : (gs.flatMap Prod.snd).countP p = 0 := by
        apply countP_flatMap_eq_zero
        intro g1 h1 x hx
        have hkey : g1.1 ≠ g0.1 := fun hc => by
          rw [heq] at hc
          exact hnd.1 (hc ▸ List.mem_map_of_mem Prod.fst h1)
        exact hothers g1 (List.mem_cons_of_mem g h1) hkey x hx
      rw [hz, heq]
      simp
    · have hgk : g.1 ≠ g0.1 := fun hc => (hc ▸ hnd.1) (List.mem_map_of_mem Prod.fst hmem1)
      have hz : g.2.countP p = 0 := List.countP_eq_zero.mpr
        (fun x hx => by simp [hothers g (List.mem_cons_self g gs) hgk x hx])
      rw [hz, ih hmem1 hnd.2 (fun g1 h1 => hothers g1 (List.mem_cons_of_mem g h1))]
      simp

/-- Signing a comment action changes neither its type, target nor data. -/
theorem signAction_fields (x : Action) :
    (signAction x).actionType = x.actionType ∧ (signAction x).target = x.target ∧
    (signAction x).data = x.data := by
  simp [signAction]

/-- Recognizer for an action-targeted comment on signature `t` with text `c`. -/
def isActionCommentFor (t c : String) (x : Action) : Bool :=
  decide (x.target = ⟨ActionTarget, "", SignatureLookupKey, t⟩ ∧
    lookupKeyList CommentData (x.data.getD []) = some (JVal.str c))

/-- Recognizer for an RFC-targeted comment with text `c` and the dangling
note for target `t`. -/
def isRfcNoteCommentFor (rfcSig t c : String) (x : Action) : Bool :=
  decide (x.target = ⟨RfcTarget, "", SignatureLookupKey, rfcSig⟩ ∧
    lookupKeyList CommentData (x.data.getD []) = some (JVal.str c) ∧
    lookupKeyList NoteData (x.data.getD []) = some (JVal.str (noteText t)))

/-- Recognizer for an RFC-targeted comment with text `c` and no note. -/
def isRfcPlainCommentFor (rfcSig c : String) (x : Action) : Bool :=
  decide (x.target = ⟨RfcTarget, "", SignatureLookupKey, rfcSig⟩ ∧
    lookupKeyList CommentData (x.data.getD []) = some (JVal.str c) ∧
    lookupKeyList NoteData (x.data.getD []) = none)

/-- Field content of the action-targeted comment constructor. -/
theorem commentActionFor_fields (sigv cmt u : String) :
    (commentActionFor sigv cmt u).target = ⟨ActionTarget, "", SignatureLookupKey, sigv⟩ ∧
    lookupKeyList CommentData ((commentActionFor sigv cmt u).data.getD [])
      = some (JVal.str cmt) ∧
    lookupKeyList NoteData ((commentActionFor sigv cmt u).data.getD []) = none := by
  have h1 : ¬ (CommentData = NoteData) := by decide
  have h2 : ¬ (CommenterData = NoteData) := by decide
  refine ⟨rfl, ?_, ?_⟩
  · show lookupKeyList CommentData
        [(CommentData, JVal.str cmt), (CommenterData, JVal.str u)] = _
    simp [lookupKeyList]
  · show lookupKeyList NoteData
        [(CommentData, JVal.str cmt), (CommenterData, JVal.str u)] = none
    simp [lookupKeyList, h1, h2]

/-- Field content of the RFC-targeted comment constructor. -/
theorem rfcCommentFor_fields (rfc : RFC) (t c u : String) :
    (rfcCommentFor rfc t c u).target = ⟨RfcTarget, "", SignatureLookupKey, rfc.signature⟩ ∧
    lookupKeyList CommentData ((rfcCommentFor rfc t c u).data.getD []) = some (JVal.str c) ∧
    lookupKeyList NoteData ((rfcCommentFor rfc t c u).data.getD [])
      = (if t = rfc.signature then none else some (JVal.str (noteText t))) := by
  have h1 : ¬ (CommentData = NoteData) := by decide
  have h2 : ¬ (CommenterData = NoteData) := by decide
  refine ⟨by simp [rfcCommentFor], ?_, ?_⟩
  · by_cases ht : t = rfc.signature <;>
      simp [rfcCommentFor, ht, lookupKeyList, mapSet, h1, h2]
  · by_cases ht : t = rfc.signature <;>
      simp [rfcCommentFor, ht, lookupKeyList, mapSet, h1, h2]

/-- The dangling-note text determines the dangling target signature. -/
theorem noteText_inj {t1 t2 : String} (h : noteText t1 = noteText t2) : t1 = t2 := by
  unfold noteText at h
  have h2 := congrArg String.data h
  simp only [String.data_append] at h2
  exact String.ext (List.append_cancel_left (List.append_cancel_right h2))

/-- The dangling-note text is never empty. -/
theorem noteText_ne_empty (t : String) : noteText t ≠ "" := by
  intro h
  have hl := congrArg String.length h
  simp only [noteText, String.length_append, String.length_empty] at hl
  have h22 : 0 < ("Target with signature " : String).length := by decide
  omega

/-- The action-comment recognizer on its own constructor checks the text. -/
theorem isActionCommentFor_ctor (t c c0 u : String) :
    isActionCommentFor t c (commentActionFor t c0 u) = (c0 == c) := by
  have hf := commentActionFor_fields t c0 u
  by_cases hc : c0 = c
  · subst hc
    simp [isActionCommentFor, hf.1, hf.2.1]
  · simp [isActionCommentFor, hf.1, hf.2.1, hc]

/-- The action-comment recognizer rejects comments on other signatures. -/
theorem isActionCommentFor_ctor_ne (t t' c c0 u : String) (h : ¬ (t' = t)) :
    isActionCommentFor t c (commentActionFor t' c0 u) = false := by
  have hf := commentActionFor_fields t' c0 u
  simp [isActionCommentFor, hf.1, Target.mk.injEq, h]

/-- The action-comment recognizer rejects RFC-targeted comments. -/
theorem isActionCommentFor_rfcCtor (t c : String) (rfc : RFC) (t' c0 u : String) :
    isActionCommentFor t c (rfcCommentFor rfc t' c0 u) = false := by
  have hf := rfcCommentFor_fields rfc t' c0 u
  have hne : ¬ (RfcTarget = ActionTarget) := by decide
  simp [isActionCommentFor, hf.1, Target.mk.injEq, hne]

/-- The note recognizer rejects action-targeted comments. -/
theorem isRfcNote_actionCtor (rs t c : String) (t' c0 u : String) :
    isRfcNoteCommentFor rs t c (commentActionFor t' c0 u) = false := by
  have hf := commentActionFor_fields t' c0 u
  have hne : ¬ (ActionTarget = RfcTarget) := by decide
  simp [isRfcNoteCommentFor, hf.1, Target.mk.injEq, hne]

/-- The plain recognizer rejects action-targeted comments. -/
theorem isRfcPlain_actionCtor (rs c : String) (t' c0 u : String) :
    isRfcPlainCommentFor rs c (commentActionFor t' c0 u) = false := by
  have hf := commentActionFor_fields t' c0 u
  have hne : ¬ (ActionTarget = RfcTarget) := by decide
  simp [isRfcPlainCommentFor, hf.1, Target.mk.injEq, hne]

/-- The note recognizer on its own constructor checks the text. -/
theorem isRfcNote_ctor (rfc : RFC) (t c c0 u : String) (ht : ¬ (t = rfc.signature)) :
    isRfcNoteCommentFor rfc.signature t c (rfcCommentFor rfc t c0 u) = (c0 == c) := by
  have hf := rfcCommentFor_fields rfc t c0 u
  by_cases hc : c0 = c
  · subst hc
    simp [isRfcNoteCommentFor, hf.1, hf.2.1, hf.2.2, ht]
  · simp [isRfcNoteCommentFor, hf.1, hf.2.1, hf.2.2, ht, hc]

/-- The note recognizer rejects RFC comments for other targets. -/
theorem isRfcNote_ctor_ne (rfc : RFC) (t t' c c0 u : String) (h : ¬ (t' = t)) :
    isRfcNoteCommentFor rfc.signature t c (rfcCommentFor rfc t' c0 u) = false := by
  have hf := rfcCommentFor_fields rfc t' c0 u
  by_cases ht' : t' = rfc.signature
  · subst ht'
    simp only [if_pos rfl] at hf
    simp [isRfcNoteCommentFor, hf.1, hf.2.1, hf.2.2]
  · have hnn : ¬ (noteText t' = noteText t) := fun hc => h (noteText_inj hc)
    simp [isRfcNoteCommentFor, hf.1, hf.2.1, hf.2.2, ht', hnn]

/-- The plain recognizer on the rfc-signature constructor checks the text. -/
theorem isRfcPlain_ctor (rfc : RFC) (c c0 u : String) :
    isRfcPlainCommentFor rfc.signature c (rfcCommentFor rfc rfc.signature c0 u) = (c0 == c) := by
  have hf := rfcCommentFor_fields rfc rfc.signature c0 u
  simp only [if_pos rfl] at hf
  by_cases hc : c0 = c
  · subst hc
    simp [isRfcPlainCommentFor, hf.1, hf.2.1, hf.2.2]
  · simp [isRfcPlainCommentFor, hf.1, hf.2.1, hf.2.2, hc]

/-- The plain recognizer rejects note-carrying RFC comments. -/
theorem isRfcPlain_ctor_note (rfc : RFC) (t' c c0 u : String) (h : ¬ (t' = rfc.signature)) :
    isRfcPlainCommentFor rfc.signature c (rfcCommentFor rfc t' c0 u) = false := by
  have hf := rfcCommentFor_fields rfc t' c0 u
  simp [isRfcPlainCommentFor, hf.1, hf.2.1, hf.2.2, h]

/-- Counting a text-checking predicate over a mapped builder list counts
the matching comment strings. -/
theorem countP_map_eq_count (f : String → Action) (p : Action → Bool) (c : String)
    (h : ∀ c0, p (f c0) = (c0 == c)) (cmts : List String) :
    (cmts.map f).countP p = cmts.count c := by
  induction cmts with
  | nil => simp
  | cons c0 cs ih =>
    by_cases hc : c0 = c
    · subst hc
      simp [List.countP_cons, List.count_cons, ih, h c0]
    · simp [List.countP_cons, List.count_cons, ih, h c0, hc, Ne.symm hc]

/-- `countP` only depends on predicate values on the list. -/
theorem countP_congr_on (l : List Action) (p q : Action → Bool) (h : ∀ a ∈ l, p a = q a) :
    l.countP p = l.countP q := by
  induction l with
  | nil => rfl
  | cons a l ih =>
    rw [List.countP_cons, List.countP_cons, h a (List.mem_cons_self a l),
      ih (fun b hb => h b (List.mem_cons_of_mem a hb))]

/-- Signing does not change the action-comment recognizer. -/
theorem isActionCommentFor_sign (t c : String) (x : Action) :
    isActionCommentFor t c (signAction x) = isActionCommentFor t c x := by
  simp [isActionCommentFor, (signAction_fields x).2.1, (signAction_fields x).2.2]

/-- Signing does not change the note recognizer. -/
theorem isRfcNote_sign (rs t c : String) (x : Action) :
    isRfcNoteCommentFor rs t c (signAction x) = isRfcNoteCommentFor rs t c x := by
  simp [isRfcNoteCommentFor, (signAction_fields x).2.1, (signAction_fields x).2.2]

/-- Signing does not change the plain recognizer. -/
theorem isRfcPlain_sign (rs c : String) (x : Action) :
    isRfcPlainCommentFor rs c (signAction x) = isRfcPlainCommentFor rs c x := by
  simp [isRfcPlainCommentFor, (signAction_fields x).2.1, (signAction_fields x).2.2]

/-- The appended-comment count for a signing-invariant predicate that can
only hold in one group is that group's count. -/
theorem countP_appended (rfc : RFC) (comments : List (String × List String))
    (commenter : String) (hk : (comments.map Prod.fst).Nodup)
    (ha : (rfc.actions.map Action.signature).Nodup) (p : Action → Bool)
    (hsign : ∀ x, p (signAction x) = p x) (g0 : String × List Action)
    (hg0 : g0 ∈ phase1Groups rfc.actions comments commenter
      ++ phase2Groups rfc comments commenter (phase1Groups rfc.actions comments commenter))
    (hoth : ∀ g ∈ phase1Groups rfc.actions comments commenter
      ++ phase2Groups rfc comments commenter (phase1Groups rfc.actions comments commenter),
      g.1 ≠ g0.1 → ∀ x ∈ g.2, p x = false) :
    (appendedComments rfc comments commenter).countP p = g0.2.countP p := by
  unfold appendedComments
  rw [List.countP_map]
  exact (countP_congr_on _ _ p (fun a _ => hsign a)).trans
    (countP_flatMap_single p g0 _ hg0 (groups_keys_nodup rfc comments commenter hk ha) hoth)

/-- Claim C5 amended: `AddComments` drops no comment, and emits exactly
one comment action per comment string PROVIDED the RFC's existing action
signatures are pairwise distinct (the unrestricted claim is false: with a
duplicated signature the first loop emits one comment action per matching
action per string, see the counterexample). Under distinct comment keys
(automatic for a Go map), distinct action signatures, and non-empty
comment lists: every appended action is a comment action; a target
signature matching an action yields, per comment string, exactly one
action-targeted comment carrying that string; an unmatched target
different from the RFC signature yields, per string, exactly one
RFC-targeted comment carrying the (always non-empty) dangling note; and
the remaining case — the unmatched target equal to the RFC signature —
yields, per string, exactly one note-free RFC-targeted comment. -/
theorem c5_attach_comments (rfc : RFC) (comments : List (String × List String))
    (commenter : String) (hk : (comments.map Prod.fst).Nodup)
    (ha : (rfc.actions.map Action.signature).Nodup)
    (hne : ∀ tc ∈ comments, tc.2 ≠ []) :
    (∀ x ∈ (rfc.addComments comments commenter).actions.drop rfc.actions.length,
        x.actionType = CommentAction) ∧
    ∀ tc ∈ comments, ∀ c : String,
      ((∃ a ∈ rfc.actions, a.signature = tc.1) →
        ((rfc.addComments comments commenter).actions.drop rfc.actions.length).countP
          (isActionCommentFor tc.1 c) = tc.2.count c) ∧
      ((¬ ∃ a ∈ rfc.actions, a.signature = tc.1) → tc.1 ≠ rfc.signature →
        noteText tc.1 ≠ "" ∧
        ((rfc.addComments comments commenter).actions.drop rfc.actions.length).countP
          (isRfcNoteCommentFor rfc.signature tc.1 c) = tc.2.count c) ∧
      ((¬ ∃ a ∈ rfc.actions, a.signature = tc.1) → tc.1 = rfc.signature →
        ((rfc.addComments comments commenter).actions.drop rfc.actions.length).countP
          (isRfcPlainCommentFor rfc.signature c) = tc.2.count c) := by
  have hdrop : (rfc.addComments comments commenter).actions.drop rfc.actions.length
      = appendedComments rfc comments commenter := by
    rw [addComments_actions rfc comments commenter hk ha, List.drop_left]
  constructor
  · intro x hx
    rw [hdrop] at hx
    obtain ⟨y, hy, hxy⟩ := List.mem_map.mp hx
    obtain ⟨g, hg, hyg⟩ := List.mem_flatMap.mp hy
    rw [← hxy, (signAction_fields y).1]
    rcases List.mem_append.mp hg with hg1 | hg2
    · obtain ⟨a1, _, cmts1, _, _, geq⟩ := mem_phase1Groups hg1
      rw [geq] at hyg
      obtain ⟨c1, _, hyc⟩ := List.mem_map.mp hyg
      rw [← hyc]
      rfl
    · obtain ⟨tc1, _, _, _, geq⟩ := mem_phase2Groups hg2
      rw [geq] at hyg
      obtain ⟨c1, _, hyc⟩ := List.mem_map.mp hyg
      rw [← hyc]
      rfl
  · rintro ⟨t, cmts⟩ htc c
    have hcne : cmts ≠ [] := hne (t, cmts) htc
    have hlkc : lookupKeyList t comments = some cmts := lookupKeyList_of_mem hk htc
    obtain ⟨c0, cs, rfl⟩ := List.exists_cons_of_ne_nil hcne
    refine ⟨?_, ?_, ?_⟩
    · rintro ⟨a0, ha0, hsig⟩
      rw [hdrop]
      have hg0 : ((t, (c0 :: cs).map (fun c1 => commentActionFor t c1 commenter))
            : String × List Action) ∈ phase1Groups rfc.actions comments commenter := by
        apply List.mem_filterMap.mpr
        refine ⟨a0, ha0, ?_⟩
        rw [hsig, hlkc]
      have hoth : ∀ g ∈ phase1Groups rfc.actions comments commenter
          ++ phase2Groups rfc comments commenter (phase1Groups rfc.actions comments commenter),
          g.1 ≠ ((t, (c0 :: cs).map (fun c1 => commentActionFor t c1 commenter))
            : String × List Action).1 → ∀ x ∈ g.2, isActionCommentFor t c x = false := by
        intro g hg hgk x hx
        rcases List.mem_append.mp hg with hg1 | hg2
        · obtain ⟨a1, _, cmts1, _, _, geq⟩ := mem_phase1Groups hg1
          rw [geq] at hgk hx
          obtain ⟨c1, _, hyc⟩ := List.mem_map.mp hx
          rw [← hyc]
          exact isActionCommentFor_ctor_ne t a1.signature c c1 commenter (by simpa using hgk)
        · obtain ⟨tc1, _, _, _, geq⟩ := mem_phase2Groups hg2
          rw [geq] at hx
          obtain ⟨c1, _, hyc⟩ := List.mem_map.mp hx
          rw [← hyc]
          exact isActionCommentFor_rfcCtor t c rfc tc1.1 c1 commenter
      rw [countP_appended rfc comments commenter hk ha _
        (fun x => isActionCommentFor_sign t c x) _ (List.mem_append_left _ hg0) hoth]
      exact countP_map_eq_count _ _ c (fun c1 => isActionCommentFor_ctor t c c1 commenter) _
    · rintro hnomatch htr
      refine ⟨noteText_ne_empty t, ?_⟩
      rw [hdrop]
      have hkeys : lookupKeyList t (phase1Groups rfc.actions comments commenter) = none := by
        rw [lookupKeyList_eq_none]
        intro hmem
        obtain ⟨a1, ha1, hsig1⟩ := List.mem_map.mp
          ((phase1Groups_keys_sublist rfc.actions comments commenter).subset hmem)
        exact hnomatch ⟨a1, ha1, hsig1⟩
      have hg0 : ((t, (c0 :: cs).map (fun c1 => rfcCommentFor rfc t c1 commenter))
            : String × List Action) ∈ phase2Groups rfc comments commenter
              (phase1Groups rfc.actions comments commenter) := by
        apply List.mem_filterMap.mpr
        refine ⟨(t, c0 :: cs), htc, ?_⟩
        show (match lookupKeyList t (phase1Groups rfc.actions comments commenter) with
          | some _ => none
          | none => if (c0 :: cs : List String) = [] then none
            else some ((t, (c0 :: cs).map (fun c1 => rfcCommentFor rfc t c1 commenter))
              : String × List Action)) = _
        rw [hkeys]
        rfl
      have hoth : ∀ g ∈ phase1Groups rfc.actions comments commenter
          ++ phase2Groups rfc comments commenter (phase1Groups rfc.actions comments commenter),
          g.1 ≠ ((t, (c0 :: cs).map (fun c1 => rfcCommentFor rfc t c1 commenter))
            : String × List Action).1 → ∀ x ∈ g.2,
            isRfcNoteCommentFor rfc.signature t c x = false := by
        intro g hg hgk x hx
        rcases List.mem_append.mp hg with hg1 | hg2
        · obtain ⟨a1, _, cmts1, _, _, geq⟩ := mem_phase1Groups hg1
          rw [geq] at hx
          obtain ⟨c1, _, hyc⟩ := List.mem_map.mp hx
          rw [← hyc]
          exact isRfcNote_actionCtor rfc.signature t c a1.signature c1 commenter
        · obtain ⟨tc1, _, _, _, geq⟩ := mem_phase2Groups hg2
          rw [geq] at hgk hx
          obtain ⟨c1, _, hyc⟩ := List.mem_map.mp hx
          rw [← hyc]
          exact isRfcNote_ctor_ne rfc t tc1.1 c c1 commenter (by simpa using hgk)
      rw [countP_appended rfc comments commenter hk ha _
        (fun x => isRfcNote_sign rfc.signature t c x) _ (List.mem_append_right _ hg0) hoth]
      exact countP_map_eq_count _ _ c (fun c1 => isRfcNote_ctor rfc t c c1 commenter htr) _
    · rintro hnomatch htr
      subst htr
      rw [hdrop]
      have hkeys : lookupKeyList rfc.signature (phase1Groups rfc.actions comments commenter)
          = none := by
        rw [lookupKeyList_eq_none]
        intro hmem
        obtain ⟨a1, ha1, hsig1⟩ := List.mem_map.mp
          ((phase1Groups_keys_sublist rfc.actions comments commenter).subset hmem)
        exact hnomatch ⟨a1, ha1, hsig1⟩
      have hg0 : ((rfc.signature, (c0 :: cs).map
            (fun c1 => rfcCommentFor rfc rfc.signature c1 commenter))
            : String × List Action) ∈ phase2Groups rfc comments commenter
              (phase1Groups rfc.actions comments commenter) := by
        apply List.mem_filterMap.mpr
        refine ⟨(rfc.signature, c0 :: cs), htc, ?_⟩
        show (match lookupKeyList rfc.signature (phase1Groups rfc.actions comments commenter) with
          | some _ => none
          | none => if (c0 :: cs : List String) = [] then none
            else some ((rfc.signature, (c0 :: cs).map
              (fun c1 => rfcCommentFor rfc rfc.signature c1 commenter))
              : String × List Action)) = _
        rw [hkeys]
        rfl
      have hoth : ∀ g ∈ phase1Groups rfc.actions comments commenter
          ++ phase2Groups rfc comments commenter (phase1Groups rfc.actions comments commenter),
          g.1 ≠ ((rfc.signature, (c0 :: cs).map
            (fun c1 => rfcCommentFor rfc rfc.signature c1 commenter))
            : String × List Action).1 → ∀ x ∈ g.2,
            isRfcPlainCommentFor rfc.signature c x = false := by
        intro g hg hgk x hx
        rcases List.mem_append.mp hg with hg1 | hg2
        · obtain ⟨a1, _, cmts1, _, _, geq⟩ := mem_phase1Groups hg1
          rw [geq] at hx
          obtain ⟨c1, _, hyc⟩ := List.mem_map.mp hx
          rw [← hyc]
          exact isRfcPlain_actionCtor rfc.signature c a1.signature c1 commenter
        · obtain ⟨tc1, _, _, _, geq⟩ := mem_phase2Groups hg2
          rw [geq] at hgk hx
          obtain ⟨c1, _, hyc⟩ := List.mem_map.mp hx
          rw [← hyc]
          exact isRfcPlain_ctor_note rfc tc1.1 c c1 commenter (by simpa using hgk)
      rw [countP_appended rfc comments commenter hk ha _
        (fun x => isRfcPlain_sign rfc.signature c x) _ (List.mem_append_right _ hg0) hoth]
      exact countP_map_eq_count _ _ c (fun c1 => isRfcPlain_ctor rfc c c1 commenter) _

/-- A schema action with signature "s1", duplicated below. -/
def actD : Action := ⟨AddActionType, ⟨ItemTarget, "d", "k", "v"⟩, "s1", none⟩

/-- An RFC carrying two verbatim-duplicated actions that share the
signature "s1" — reachable, e.g., by resubmitting an action verbatim
through Update, since identical content hashes identically. -/
def rfcDup : RFC := ⟨[actD, actD], "rs", "id"⟩

/-- Claim C5 is false as frozen: on an RFC with a duplicated action
signature, a single comment string on that signature yields one comment
action per matching action — two here, not one. -/
theorem c5_counterexample :
    ((rfcDup.addComments [("s1", ["hello"])] ("bob")).actions.drop
        rfcDup.actions.length).countP (isActionCommentFor ("s1") ("hello")) = 2 ∧
    (["hello"] : List String).count ("hello") = 1 := by
  decide

/-- The schema action of the `AddComments` exercise RFC. -/
def action5 : Action := ⟨AddActionType, ⟨ItemTarget, "d", "k", "v"⟩, "s1", none⟩

/-- A small RFC with one schema action, for exercising `AddComments`. -/
def rfc5 : RFC := ⟨[action5], "rs", "id"⟩

/-- Comments on the action, on a dangling target, and on the RFC itself. -/
def comments5 : List (String × List String) :=
  [("s1", ["hello"]), ("dangling", ["x", "x"]), ("rs", ["top"])]

theorem c5_witness :
    ((rfc5.addComments comments5 ("bob")).actions.drop rfc5.actions.length).countP
        (isActionCommentFor ("s1") ("hello")) = 1 ∧
    ((rfc5.addComments comments5 ("bob")).actions.drop rfc5.actions.length).countP
        (isRfcNoteCommentFor rfc5.signature ("dangling") ("x")) = 2 ∧
    ((rfc5.addComments comments5 ("bob")).actions.drop rfc5.actions.length).countP
        (isRfcPlainCommentFor rfc5.signature ("top")) = 1 := by
  have h := c5_attach_comments rfc5 comments5 ("bob") (by decide) (by decide) (by decide)
  refine ⟨?_, ?_, ?_⟩
  · exact ((h.2 ("s1", ["hello"]) (by decide) ("hello")).1
      ⟨action5, by decide, rfl⟩).trans (by decide)
  · exact (((h.2 ("dangling", ["x", "x"]) (by decide) ("x")).2.1
      (by decide) (by decide)).2).trans (by decide)
  · exact ((h.2 ("rs", ["top"]) (by decide) ("top")).2.2
      (by decide) (by decide)).trans (by decide)

/-! ## Claim C1 -/

/-- Claim C1 is false on the code: hashing the repository's own test action
after signing it yields a different hash than hashing it with the empty
signature, and the same holds for the test RFC — `ToSha` marshals the
entity's `Signature` field whenever it is non-empty. -/
theorem c1_counterexample :
    Action.toSha { fixtureAddAction with signature := Action.toSha fixtureAddAction } ≠
        Action.toSha fixtureAddAction ∧
    RFC.toSha { fixtureRFC with signature := RFC.toSha fixtureRFC } ≠ RFC.toSha fixtureRFC ∧
    fixtureAddAction.signature = "" ∧ fixtureRFC.signature = "" := by
  refine ⟨?_, ?_, rfl, rfl⟩
  · rw [embedding_matches_test_action_signature]
    decide
  · rw [embedding_matches_test_rfc_signature]
    decide

/-- Claim C1 amended: `Action.ToSha` and `RFC.ToSha` are independent of the
entity's `Signature` field only when that field is empty; with any
non-empty signature the marshaled hash input strictly differs from the
empty-signature hash input (the `omitempty` tag drops the field only when
it is empty), so re-signing an already-signed entity hashes different
bytes. -/
theorem c1_amended (a : Action) (r : RFC) (s : String) (hs : s ≠ "") :
    marshalAction { a with signature := s } ≠ marshalAction { a with signature := "" } ∧
    marshalRFC { r with signature := s } ≠ marshalRFC { r with signature := "" } := by
  have hpos : 0 < s.length := length_pos_of_ne_empty hs
  constructor
  · intro h
    have hlen := congrArg String.length h
    simp [marshalAction, quoteStr, String.length_append, hs] at hlen
    omega
  · intro h
    have hlen := congrArg String.length h
    simp [marshalRFC, quoteStr, String.length_append, hs] at hlen
    omega

/-- Witness for the amended C1 at the test fixture with signature "x". -/
theorem c1_witness :
    ("x" : String) ≠ "" ∧
    (marshalAction { fixtureAddAction with signature := "x" } ≠
        marshalAction { fixtureAddAction with signature := "" } ∧
     marshalRFC { fixtureRFC with signature := "x" } ≠
        marshalRFC { fixtureRFC with signature := "" }) :=
  ⟨by decide, c1_amended fixtureAddAction fixtureRFC "x" (by decide)⟩

/-! ## Claim C2 -/

/-- `submitSigned fixtureRFC` with both content hashes staged as literals. -/
def submittedLit : RFC :=
  { actions := [{ fixtureAddAction with
      signature := "49991c32fc001d99b9c5908005509686aff6ba7d16a14cd3ecaebc5d6d916cf0" }],
    signature := "7fe5c325b99df102515c1f8d5e1cdde084dc9beabec4a346f07dcd90d4ddb4b1",
    identifier := "" }

/-- Claim C2 is false on the code: appending an action to the signed
submit-time RFC leaves the RFC `Signature` at its pre-add value, which is
not the content hash of the grown action list. -/
theorem c2_counterexample :
    ((submitSigned fixtureRFC).addAction fixtureStoredComment).signature
        = (submitSigned fixtureRFC).signature ∧
    ((submitSigned fixtureRFC).addAction fixtureStoredComment).actions.length
        = (submitSigned fixtureRFC).actions.length + 1 ∧
    ((submitSigned fixtureRFC).addAction fixtureStoredComment).signature ≠
      RFC.toSha { actions := ((submitSigned fixtureRFC).addAction fixtureStoredComment).actions,
                  signature := "", identifier := "" } := by
  have hsa : signAction fixtureAddAction = { fixtureAddAction with
      signature := "49991c32fc001d99b9c5908005509686aff6ba7d16a14cd3ecaebc5d6d916cf0" } := by
    show { fixtureAddAction with signature := Action.toSha fixtureAddAction } = _
    rw [embedding_matches_test_action_signature]
  have hs : submitSigned fixtureRFC = submittedLit := by
    unfold submitSigned signActions
    rw [embedding_matches_test_rfc_signature,
      show List.map signAction fixtureRFC.actions = [signAction fixtureAddAction] from rfl, hsa]
    rfl
  have hc : signAction fixtureStoredComment = { fixtureStoredComment with
      signature := "832fd5a2d12eb39e3b9d8a1cdbb28b387b78e267c5b15a658431df9a2d0dcc25" } := by
    show { fixtureStoredComment with signature := Action.toSha fixtureStoredComment } = _
    rw [embedding_stored_comment_sha]
  rw [hs, addAction_eq, hc]
  decide

/-- The RFC signature survives `AddAction`. -/
theorem addAction_signature (rfc : RFC) (a : Action) :
    (rfc.addAction a).signature = rfc.signature := rfl

/-- The RFC signature survives `AddComments`. -/
theorem addComments_signature (rfc : RFC) (cs : List (String × List String)) (u : String) :
    (rfc.addComments cs u).signature = rfc.signature := by
  rw [addComments_eq]

/-- Claim C2 amended: the add operations never refresh the RFC signature.
`AddAction` and `AddComments` append (signed) actions but leave the RFC's
own `Signature` exactly as it was, so it is stale after any add; and
whatever RFC `ReviewRequest` persists through `updateFile` still carries
the signature of the RFC as fetched from the store, untouched by the
comment-attachment and review-recording appends. -/
theorem c2_amended (rfc : RFC) (a : Action) (cs : List (String × List String)) (u : String) :
    (rfc.addAction a).signature = rfc.signature ∧
    (rfc.addAction a).actions.length = rfc.actions.length + 1 ∧
    (rfc.addComments cs u).signature = rfc.signature ∧
    (∀ (git : Git) (data : Review) (pr : Nat) (r : RFC),
      GitCall.updateFile pr r ∈ (ReviewRequest git data).1 →
      ∃ rfc0, git.getRFCContents data.rfcIdentifier = .ok rfc0 ∧ r.signature = rfc0.signature) := by
  refine ⟨rfl, by simp [RFC.addAction], addComments_signature rfc cs u, ?_⟩
  intro git data pr r hmem
  by_cases hval : (data.type = COMMENT_REVIEW_TYPE ∨ data.type = REQUEST_CHANGES_REVIEW_TYPE) ∧
      data.topLevelComment = "" ∧ data.comments = []
  · simp only [ReviewRequest, if_pos hval] at hmem
    simp at hmem
  · simp only [ReviewRequest, if_neg hval] at hmem
    split at hmem
    · simp at hmem
    · split at hmem
      · simp at hmem
      · split at hmem
        · simp at hmem
        · rename_i rfc0 hgc
          refine ⟨rfc0, hgc, ?_⟩
          split at hmem
          · simp at hmem
            obtain ⟨-, hr⟩ := hmem
            rw [hr]
            split <;> simp [RFC.addAction, addComments_signature]
          · split at hmem
            · simp at hmem
              obtain ⟨-, hr⟩ := hmem
              rw [hr]
              split <;> simp [RFC.addAction, addComments_signature]
            · split at hmem <;>
                · simp at hmem
                  obtain ⟨-, hr⟩ := hmem
                  rw [hr]
                  split <;> simp [RFC.addAction, addComments_signature]

/-- The stored RFC fetched by the C2/C3 witness backends. -/
def rfc0W : RFC := { actions := [], signature := "sig0", identifier := "" }

/-- A backend on which every call succeeds, fetching `rfc0W`. -/
def gitW : Git :=
  { createBranch := fun _ _ => .ok (), deleteBranch := fun _ => .ok (),
    createFile := fun _ _ _ => .ok (), createPullRequest := fun _ _ => .ok (),
    getPullRequest := fun _ => .ok 1, getUserLogin := .ok ("bob"),
    getRFCContents := fun _ => .ok rfc0W, updateFile := fun _ _ => .ok (),
    createReview := fun _ => .ok () }

/-- An approval review with no comments, for the C2 witness. -/
def dataW : Review :=
  { rfcIdentifier := "42", type := APPROVE_REVIEW_TYPE, topLevelComment := "",
    comments := [], loadOnApproval := false }

/-- The RFC that `ReviewRequest gitW dataW` persists. -/
def persistedW : RFC :=
  (rfc0W.addComments [] ("bob")).addAction
    (mkReviewAction (rfc0W.addComments [] ("bob")) APPROVE_REVIEW_TYPE ("bob") "")

/-- Witness for the amended C2: on a concrete approval review, the RFC
persisted through `updateFile` still carries the fetched signature. -/
theorem c2_witness :
    GitCall.updateFile 1 persistedW ∈ (ReviewRequest gitW dataW).1 ∧
    (∃ rfc0, gitW.getRFCContents dataW.rfcIdentifier = .ok rfc0 ∧
      persistedW.signature = rfc0.signature) := by
  have hr : (ReviewRequest gitW dataW).1
      = [.getPullRequest ("42"), .getUserLogin, .getRFCContents ("42"),
         .updateFile 1 persistedW, .createReview 1] := rfl
  have hm : GitCall.updateFile 1 persistedW ∈ (ReviewRequest gitW dataW).1 := by
    rw [hr]
    exact List.mem_cons_of_mem _ (List.mem_cons_of_mem _ (List.mem_cons_of_mem _
      (List.mem_cons_self _ _)))
  exact ⟨hm, (c2_amended rfc0W fixtureStoredComment [] ("u")).2.2.2 gitW dataW 1 persistedW hm⟩

/-! ## Claim C3 -/

/-- A plain-comment review carrying a top-level comment, for C3. -/
def data3 : Review :=
  { rfcIdentifier := "42", type := COMMENT_REVIEW_TYPE, topLevelComment := "hi",
    comments := [], loadOnApproval := false }

/-- The RFC that `ReviewRequest gitW data3` persists. -/
def persisted3 : RFC :=
  (rfc0W.addComments [] ("bob")).addAction
    (mkReviewAction (rfc0W.addComments [] ("bob")) COMMENT_REVIEW_TYPE ("bob") ("hi"))

/-- Claim C3 fails on the code for COMMENT reviews: the recorded action's
data holds the user login under key "comment" (`models.CommentData`, where
the inline comment says "we want commenter"), which the top-level comment
text then overwrites — the persisted action carries neither a "commenter"
nor a "reviewer" entry, and the acting user's login is lost. -/
theorem c3_bug_eval :
    GitCall.updateFile 1 persisted3 ∈ (ReviewRequest gitW data3).1 ∧
    (mkReviewAction (rfc0W.addComments [] ("bob")) COMMENT_REVIEW_TYPE ("bob") ("hi")).data
        = some [(CommentData, JVal.str ("hi"))] ∧
    lookupKeyList CommenterData
        ((mkReviewAction (rfc0W.addComments [] ("bob")) COMMENT_REVIEW_TYPE ("bob") ("hi")).data.getD [])
        = none ∧
    lookupKeyList ReviewerData
        ((mkReviewAction (rfc0W.addComments [] ("bob")) COMMENT_REVIEW_TYPE ("bob") ("hi")).data.getD [])
        = none := by
  refine ⟨?_, by decide, by decide, by decide⟩
  have hr : (ReviewRequest gitW data3).1
      = [.getPullRequest ("42"), .getUserLogin, .getRFCContents ("42"),
         .updateFile 1 persisted3, .createReview 1] := rfl
  rw [hr]
  exact List.mem_cons_of_mem _ (List.mem_cons_of_mem _ (List.mem_cons_of_mem _
    (List.mem_cons_self _ _)))

/-! ## Claim C8 -/

/-- Claim C8: a COMMENT or REQUEST_CHANGES review with no top-level comment
and no per-action comments is rejected with the validation error and an
empty backend-call trace — no backend side effects occur. -/
theorem c8_comment_review_needs_comments (git : Git) (data : Review)
    (ht : data.type = COMMENT_REVIEW_TYPE ∨ data.type = REQUEST_CHANGES_REVIEW_TYPE)
    (hc : data.topLevelComment = "") (hm : data.comments = []) :
    ReviewRequest git data = ([], .error (reviewValidationError data.type)) := by
  simp only [ReviewRequest, if_pos (And.intro ht (And.intro hc hm))]

/-- A comment review with no comments at all, for the C8 witness. -/
def data8 : Review :=
  { rfcIdentifier := "42", type := COMMENT_REVIEW_TYPE, topLevelComment := "",
    comments := [], loadOnApproval := false }

/-- Witness for C8 at a concrete comment review with no comments. -/
theorem c8_witness :
    (data8.type = COMMENT_REVIEW_TYPE ∨ data8.type = REQUEST_CHANGES_REVIEW_TYPE) ∧
    data8.topLevelComment = "" ∧ data8.comments = [] ∧
    ReviewRequest gitW data8 = ([], .error (reviewValidationError data8.type)) :=
  ⟨Or.inl rfl, rfl, rfl, c8_comment_review_needs_comments gitW data8 (Or.inl rfl) rfl rfl⟩

/-! ## Claim C7 -/

/-- Claim C7: when the artifact write (`CreateFile`) fails after the branch
was created, `SubmitRequest` deletes the branch and returns the original
write error — the deletion's own outcome is never consulted, so a failed
deletion cannot mask the write error; the same compensation runs when
opening the pull request fails. -/
theorem c7_submit_compensation :
    (∀ (git : Git) (branch : String) (data : RFC) (e : String),
      git.createBranch branch BASE_BRANCH = .ok () →
      git.createFile branch branch (submitSigned data) = .error e →
      (SubmitRequest git branch data).2 = .error e ∧
      GitCall.deleteBranch branch ∈ (SubmitRequest git branch data).1) ∧
    (∀ (git : Git) (branch : String) (data : RFC) (e : String),
      git.createBranch branch BASE_BRANCH = .ok () →
      git.createFile branch branch (submitSigned data) = .ok () →
      git.createPullRequest branch BASE_BRANCH = .error e →
      (SubmitRequest git branch data).2 = .error e ∧
      GitCall.deleteBranch branch ∈ (SubmitRequest git branch data).1) := by
  constructor
  · intro git branch data e hcb hcf
    simp only [SubmitRequest, hcb, hcf]
    simp
  · intro git branch data e hcb hcf hcpr
    simp only [SubmitRequest, hcb, hcf, hcpr]
    simp

/-- A backend whose file write and compensating branch deletion both fail. -/
def git7 : Git :=
  { createBranch := fun _ _ => .ok (), deleteBranch := fun _ => .error ("delete branch error"),
    createFile := fun _ _ _ => .error ("create file error"),
    createPullRequest := fun _ _ => .error ("create pull request error"),
    getPullRequest := fun _ => .error ("unused"), getUserLogin := .error ("unused"),
    getRFCContents := fun _ => .error ("unused"), updateFile := fun _ _ => .error ("unused"),
    createReview := fun _ => .error ("unused") }

/-- Witness for C7: with the write failing and the branch deletion itself
failing, the original write error is returned and the deletion was
attempted. -/
theorem c7_witness :
    git7.createBranch ("b") BASE_BRANCH = .ok () ∧
    git7.createFile ("b") ("b") (submitSigned fixtureRFC) = .error ("create file error") ∧
    ((SubmitRequest git7 ("b") fixtureRFC).2 = .error ("create file error") ∧
      GitCall.deleteBranch ("b") ∈ (SubmitRequest git7 ("b") fixtureRFC).1) :=
  ⟨rfl, rfl, c7_submit_compensation.1 git7 ("b") fixtureRFC ("create file error") rfl rfl⟩

/-! ## Claims C4 and C10: the load-status upsert -/

/-- Number of `load`-typed actions in a list. -/
def countLoad (l : List Action) : Nat := l.countP (fun a => decide (a.actionType = LoadAction))

/-- Looking up the key just set by `mapSet` yields the new value. -/
theorem lookup_mapSet_self (kvs : List (String × JVal)) (k : String) (v : JVal) :
    lookupKeyList k (mapSet kvs k v) = some v := by
  induction kvs with
  | nil => simp [mapSet, lookupKeyList]
  | cons kv rest ih =>
    by_cases h : kv.1 = k
    · simp [mapSet, h, lookupKeyList]
    · simp [mapSet, h, lookupKeyList, ih]

/-- `mapSet` leaves other keys' lookups unchanged. -/
theorem lookup_mapSet_ne (kvs : List (String × JVal)) (k k0 : String) (v : JVal)
    (h : k ≠ k0) : lookupKeyList k (mapSet kvs k0 v) = lookupKeyList k kvs := by
  induction kvs with
  | nil => simp [mapSet, lookupKeyList, Ne.symm h]
  | cons kv rest ih =>
    by_cases h1 : kv.1 = k0
    · simp [mapSet, h1, lookupKeyList, Ne.symm h]
    · simp only [mapSet, if_neg h1, lookupKeyList]
      by_cases h2 : kv.1 = k
      · simp [h2]
      · simp [h2, ih]

/-- The rewritten `load` action keeps its action type and records the new
status and requester in its data map. -/
theorem updatedLoadAction_spec (a : Action) (kvs : List (String × JVal)) (s q : String) :
    (updatedLoadAction a kvs s q).actionType = a.actionType ∧
    lookupKeyList LoadStatus ((updatedLoadAction a kvs s q).data.getD []) = some (.str s) ∧
    lookupKeyList LoadRequester ((updatedLoadAction a kvs s q).data.getD []) = some (.str q) := by
  have hne : LoadStatus ≠ LoadRequester := by decide
  refine ⟨by simp only [updatedLoadAction], ?_, ?_⟩
  · show lookupKeyList LoadStatus
        (mapSet (mapSet kvs LoadStatus (JVal.str s)) LoadRequester (JVal.str q)) = some (JVal.str s)
    rw [lookup_mapSet_ne _ _ _ _ hne, lookup_mapSet_self]
  · show lookupKeyList LoadRequester
        (mapSet (mapSet kvs LoadStatus (JVal.str s)) LoadRequester (JVal.str q)) = some (JVal.str q)
    rw [lookup_mapSet_self]

/-- When the loop reports `notFound`, the list holds no `load` action. -/
theorem updateLoadActions_notFound (s q : String) (l : List Action)
    (h : updateLoadActions s q l = .notFound) :
    ∀ a ∈ l, ¬ a.actionType = LoadAction := by
  induction l with
  | nil => simp
  | cons a l ih =>
    simp only [updateLoadActions] at h
    by_cases hload : a.actionType = LoadAction
    · rw [if_pos hload] at h
      cases hd : a.data with
      | none => rw [hd] at h; exact absurd h (by simp)
      | some kvs => rw [hd] at h; exact absurd h (by simp)
    · rw [if_neg hload] at h
      cases hrec : updateLoadActions s q l with
      | panicked => rw [hrec] at h; exact absurd h (by simp)
      | updated l1 => rw [hrec] at h; exact absurd h (by simp)
      | notFound =>
        intro b hb
        rcases List.mem_cons.mp hb with hb | hb
        · exact hb ▸ hload
        · exact ih hrec b hb

/-- When the loop reports `updated`, the list splits around its first
`load` action, which is rewritten in place; everything else is untouched. -/
theorem updateLoadActions_updated (s q : String) (l l' : List Action)
    (h : updateLoadActions s q l = .updated l') :
    ∃ pre a kvs post, l = pre ++ a :: post ∧
      (∀ b ∈ pre, ¬ b.actionType = LoadAction) ∧
      a.actionType = LoadAction ∧ a.data = some kvs ∧
      l' = pre ++ updatedLoadAction a kvs s q :: post := by
  induction l generalizing l' with
  | nil => simp [updateLoadActions] at h
  | cons a l ih =>
    simp only [updateLoadActions] at h
    by_cases hload : a.actionType = LoadAction
    · rw [if_pos hload] at h
      cases hd : a.data with
      | none => rw [hd] at h; exact absurd h (by simp)
      | some kvs =>
        rw [hd] at h
        injection h with h1
        exact ⟨[], a, kvs, l, by simp, by simp, hload, hd, h1.symm⟩
    · rw [if_neg hload] at h
      cases hrec : updateLoadActions s q l with
      | panicked => rw [hrec] at h; exact absurd h (by simp)
      | notFound => rw [hrec] at h; exact absurd h (by simp)
      | updated l1 =>
        rw [hrec] at h
        injection h with h1
        obtain ⟨pre, a0, kvs, post, hl, hpre, hla, hd, hl1⟩ := ih l1 hrec
        refine ⟨a :: pre, a0, kvs, post, by simp [hl], ?_, hla, hd, ?_⟩
        · intro b hb
          rcases List.mem_cons.mp hb with hb | hb
          · exact hb ▸ hload
          · exact hpre b hb
        · rw [← h1, hl1]
          simp

/-- If every `load` action present carries a live (non-nil) data map, the
loop never panics. -/
theorem updateLoadActions_ne_panicked (s q : String) (l : List Action)
    (h : ∀ a ∈ l, a.actionType = LoadAction → a.data ≠ none) :
    updateLoadActions s q l ≠ .panicked := by
  induction l with
  | nil => simp [updateLoadActions]
  | cons a l ih =>
    simp only [updateLoadActions]
    by_cases hload : a.actionType = LoadAction
    · rw [if_pos hload]
      cases hd : a.data with
      | none => exact absurd hd (h a (List.mem_cons_self a l) hload)
      | some kvs => simp
    · rw [if_neg hload]
      have ih' := ih (fun b hb hbl => h b (List.mem_cons_of_mem a hb) hbl)
      cases hrec : updateLoadActions s q l with
      | panicked => exact absurd hrec ih'
      | updated l1 => simp
      | notFound => simp

/-- Claim C4: `UpdateLoadStatus` upserts. When no `load` action exists,
exactly one is appended, carrying the status and requester; when one
exists, the first one is rewritten in place — the list keeps its length,
nothing is appended, every other action is untouched — so the number of
`load` actions afterwards is 1 when it was 0 and unchanged otherwise, and
repeated calls never accumulate `load` actions. -/
theorem c4_upsert_load (rfc : RFC) (s q : String) (rfc' : RFC)
    (h : rfc.updateLoadStatus s q = some rfc') :
    (countLoad rfc'.actions = if countLoad rfc.actions = 0 then 1 else countLoad rfc.actions) ∧
    (countLoad rfc.actions = 0 →
      rfc'.actions = rfc.actions ++ [signAction (newLoadAction s q)] ∧
      (signAction (newLoadAction s q)).actionType = LoadAction ∧
      lookupKeyList LoadStatus ((signAction (newLoadAction s q)).data.getD []) = some (.str s) ∧
      lookupKeyList LoadRequester ((signAction (newLoadAction s q)).data.getD []) = some (.str q)) ∧
    (0 < countLoad rfc.actions →
      rfc'.actions.length = rfc.actions.length ∧
      ∃ pre a kvs post, rfc.actions = pre ++ a :: post ∧
        (∀ b ∈ pre, ¬ b.actionType = LoadAction) ∧
        a.actionType = LoadAction ∧ a.data = some kvs ∧
        rfc'.actions = pre ++ updatedLoadAction a kvs s q :: post ∧
        lookupKeyList LoadStatus ((updatedLoadAction a kvs s q).data.getD []) = some (.str s) ∧
        lookupKeyList LoadRequester ((updatedLoadAction a kvs s q).data.getD []) = some (.str q)) := by
  unfold RFC.updateLoadStatus at h
  cases hrec : updateLoadActions s q rfc.actions with
  | panicked => rw [hrec] at h; exact absurd h (by simp)
  | updated acts =>
    rw [hrec] at h
    injection h with h1
    obtain ⟨pre, a, kvs, post, hl, hpre, hla, hacts⟩ := updateLoadActions_updated s q _ _ hrec
    obtain ⟨hd, hacts⟩ := hacts
    have hcount : countLoad rfc.actions = countLoad pre + 1 + countLoad post := by
      rw [hl]
      simp [countLoad, List.countP_append, List.countP_cons, hla]
      try omega
    have hcount' : countLoad rfc'.actions = countLoad rfc.actions := by
      rw [← h1]
      show countLoad acts = _
      rw [hacts, hcount]
      simp [countLoad, List.countP_append, List.countP_cons,
        (updatedLoadAction_spec a kvs s q).1, hla]
      try omega
    refine ⟨?_, ?_, ?_⟩
    · rw [hcount', hcount, if_neg (by omega)]
    · intro h0
      rw [hcount] at h0
      exact absurd h0 (by omega)
    · intro _
      refine ⟨?_, pre, a, kvs, post, hl, hpre, hla, hd, ?_, ?_, ?_⟩
      · rw [← h1]
        show acts.length = _
        rw [hacts, hl]
        simp
      · rw [← h1]
        exact hacts
      · exact (updatedLoadAction_spec a kvs s q).2.1
      · exact (updatedLoadAction_spec a kvs s q).2.2
  | notFound =>
    rw [hrec] at h
    injection h with h1
    have hnone : rfc.actions.countP (fun a => decide (a.actionType = LoadAction)) = 0 := by
      rw [List.countP_eq_zero]
      intro a ha
      simpa using updateLoadActions_notFound s q _ hrec a ha
    have hne : LoadStatus ≠ LoadRequester := by decide
    refine ⟨?_, ?_, ?_⟩
    · rw [← h1]
      show countLoad (rfc.actions ++ [signAction (newLoadAction s q)]) = _
      simp [countLoad, List.countP_append, List.countP_cons, hnone, signAction, newLoadAction]
    · intro _
      refine ⟨by rw [← h1]; rfl, by simp only [signAction, newLoadAction], ?_, ?_⟩
      · show lookupKeyList LoadStatus [(LoadStatus, JVal.str s), (LoadRequester, JVal.str q)]
            = some (.str s)
        simp [lookupKeyList]
      · show lookupKeyList LoadRequester [(LoadStatus, JVal.str s), (LoadRequester, JVal.str q)]
            = some (.str q)
        simp [lookupKeyList, hne]
    · intro h0
      rw [countLoad, hnone] at h0
      exact absurd h0 (by omega)

/-- An action list already holding a well-formed `load` action. -/
def fixtureLoadAction : Action :=
  { actionType := LoadAction, target := ⟨"", "", "", ""⟩, signature := "",
    data := some [(LoadStatus, JVal.str ("loading")), (LoadRequester, JVal.str ("bob"))] }

/-- An RFC carrying `fixtureLoadAction`. -/
def fixtureLoadRFC : RFC := { actions := [fixtureLoadAction], signature := "", identifier := "" }

/-- The result of upserting the load status on `fixtureLoadRFC`. -/
def fixtureLoadUpdated : RFC :=
  { fixtureLoadRFC with actions := [updatedLoadAction fixtureLoadAction [(LoadStatus, JVal.str ("loading")), (LoadRequester, JVal.str ("bob"))] ("successful") ("bob")] }

/-- Witness for C4 at a concrete RFC with one existing `load` action. -/
theorem c4_witness :
    fixtureLoadRFC.updateLoadStatus ("successful") ("bob") = some fixtureLoadUpdated ∧
    countLoad fixtureLoadUpdated.actions
      = if countLoad fixtureLoadRFC.actions = 0 then 1 else countLoad fixtureLoadRFC.actions :=
  have h : fixtureLoadRFC.updateLoadStatus ("successful") ("bob")
      = some fixtureLoadUpdated := rfl
  ⟨h, (c4_upsert_load fixtureLoadRFC ("successful") ("bob") fixtureLoadUpdated h).1⟩

/-- Claim C10: `UpdateLoadStatus` is total — never hits the nil-map write
panic — provided every `load` action already present carries a non-nil
data map. -/
theorem c10_update_load_total (rfc : RFC) (s q : String)
    (h : ∀ a ∈ rfc.actions, a.actionType = LoadAction → a.data ≠ none) :
    (rfc.updateLoadStatus s q).isSome := by
  unfold RFC.updateLoadStatus
  cases hrec : updateLoadActions s q rfc.actions with
  | panicked => exact absurd hrec (updateLoadActions_ne_panicked s q rfc.actions h)
  | updated acts => simp [hrec]
  | notFound => simp [hrec]

/-- Witness for C10 at the concrete load-carrying RFC. -/
theorem c10_witness :
    (∀ a ∈ fixtureLoadRFC.actions, a.actionType = LoadAction → a.data ≠ none) ∧
    (fixtureLoadRFC.updateLoadStatus ("successful") ("carol")).isSome :=
  ⟨by decide, c10_update_load_total fixtureLoadRFC ("successful") ("carol") (by decide)⟩

/-! ## Claim C6: the mergeability verdict -/

/-- If the PR-refetch loop ends on a nil-or-unknown state, every fetch it
performed (all `fuel` of them — the retries were exhausted) returned
nil or unknown. -/
theorem pollMergeable_unknown_all (env : MergeabilityEnv) :
    ∀ (fuel i : Nat) (last st : Option String),
      pollMergeable env i fuel last = .ok st →
      (st = none ∨ st = some MERGEABILITY_UNKNOWN_STATE) →
      ∀ j, j < fuel →
        env.prMergeableState (i + j) = .ok none ∨
        env.prMergeableState (i + j) = .ok (some MERGEABILITY_UNKNOWN_STATE) := by
  intro fuel
  induction fuel with
  | zero => intro i last st _ _ j hj; exact absurd hj (by omega)
  | succ fuel ih =>
    intro i last st h hunk j hj
    simp only [pollMergeable] at h
    split at h
    · exact absurd h (by simp)
    · rename_i st0 hpr
      by_cases hu : st0 = none ∨ st0 = some MERGEABILITY_UNKNOWN_STATE
      · rw [if_pos hu] at h
        cases j with
        | zero =>
          rw [Nat.add_zero, hpr]
          rcases hu with h0 | h0
          · exact Or.inl (by rw [h0])
          · exact Or.inr (by rw [h0])
        | succ j =>
          have hrec := ih (i + 1) st0 st h hunk j (by omega)
          have harr : i + (j + 1) = i + 1 + j := by omega
          rw [harr]
          exact hrec
      · rw [if_neg hu] at h
        injection h with h2
        exact absurd (h2.symm ▸ hunk) hu

/-- Claim C6: when the status polls themselves succeed, `GetMergeability`
returns the "mergeability undeterminable" error exactly when the resolved
merge state is still nil or "unknown" — in which case every refetch up to
the retry bound reported nil/unknown, and no boolean verdict is returned —
and otherwise returns `true` exactly for the "clean" state and `false`
for every other terminal state. -/
theorem c6_mergeability_verdict (env : MergeabilityEnv) (st : Option String)
    (hcomb : pollCombined env 0 MERGEABILITY_RETRY_COUNT = .ok ())
    (hres : pollMergeable env 0 MERGEABILITY_RETRY_COUNT none = .ok st) :
    (GetMergeability env = .error mergeabilityUndeterminableError ↔
      (st = none ∨ st = some MERGEABILITY_UNKNOWN_STATE)) ∧
    ((st = none ∨ st = some MERGEABILITY_UNKNOWN_STATE) →
      (∀ b, GetMergeability env ≠ .ok b) ∧
      ∀ j, j < MERGEABILITY_RETRY_COUNT →
        env.prMergeableState j = .ok none ∨
        env.prMergeableState j = .ok (some MERGEABILITY_UNKNOWN_STATE)) ∧
    (¬ (st = none ∨ st = some MERGEABILITY_UNKNOWN_STATE) →
      (st = some MERGEABILITY_CLEAN_STATE → GetMergeability env = .ok true) ∧
      (st ≠ some MERGEABILITY_CLEAN_STATE → GetMergeability env = .ok false)) := by
  have hG : GetMergeability env =
      (if st = none ∨ st = some MERGEABILITY_UNKNOWN_STATE then
        .error mergeabilityUndeterminableError
      else if st = some MERGEABILITY_CLEAN_STATE then .ok true else .ok false) := by
    unfold GetMergeability
    rw [hcomb, hres]
  refine ⟨⟨?_, ?_⟩, ?_, ?_⟩
  · intro hE
    by_contra hunk
    rw [hG, if_neg hunk] at hE
    split at hE <;> exact absurd hE (by simp)
  · intro hunk
    rw [hG, if_pos hunk]
  · intro hunk
    refine ⟨?_, ?_⟩
    · intro b hb
      rw [hG, if_pos hunk] at hb
      exact absurd hb (by simp)
    · intro j hj
      have := pollMergeable_unknown_all env MERGEABILITY_RETRY_COUNT 0 none st hres hunk j hj
      simpa using this
  · intro hunk
    refine ⟨?_, ?_⟩
    · intro hclean
      rw [hG, if_neg hunk, if_pos hclean]
    · intro hnc
      rw [hG, if_neg hunk, if_neg hnc]

/-- A backend whose merge state stays "unknown" through every refetch. -/
def env6 : MergeabilityEnv :=
  { combinedStatus := fun _ => .ok (some ("success")),
    prMergeableState := fun _ => .ok (some MERGEABILITY_UNKNOWN_STATE) }

/-- Witness for C6: a pull request stuck at "unknown" for all retries
yields the undeterminable error, not a verdict. -/
theorem c6_witness :
    pollCombined env6 0 MERGEABILITY_RETRY_COUNT = .ok () ∧
    pollMergeable env6 0 MERGEABILITY_RETRY_COUNT none = .ok (some MERGEABILITY_UNKNOWN_STATE) ∧
    (GetMergeability env6 = .error mergeabilityUndeterminableError ↔
      (some MERGEABILITY_UNKNOWN_STATE = none ∨
        some MERGEABILITY_UNKNOWN_STATE = some MERGEABILITY_UNKNOWN_STATE)) :=
  ⟨rfl, rfl,
    (c6_mergeability_verdict env6 (some MERGEABILITY_UNKNOWN_STATE) rfl rfl).1⟩

/-! ## Claim C9: persistent-action carryover -/

/-- The carryover loop appends exactly the comment-typed actions. -/
theorem addPersistentActions_aux (acts : List Action) (r : RFC) :
    acts.foldl (fun r action =>
        if action.actionType = CommentAction then { r with actions := r.actions ++ [action] }
        else r) r
      = { r with actions := r.actions ++ acts.filter (fun a => a.actionType == CommentAction) } := by
  induction acts generalizing r with
  | nil => simp
  | cons a acts ih =>
    rw [List.foldl_cons]
    by_cases h : a.actionType = CommentAction
    · rw [if_pos h, ih]
      simp [List.filter_cons, h, List.append_assoc]
    · rw [if_neg h, ih]
      simp [List.filter_cons, h]

/-- Claim C9: `AddPersistentActions` appends to the new RFC's action list
exactly the actions of the old RFC whose type is `comment`, in their
original order and unchanged (signatures included, since the action value
is copied as-is), leaves the new RFC's pre-existing actions untouched, and
changes neither its signature nor its identifier. -/
theorem c9_persistent_actions_carryover (rfc oldRFC : RFC) :
    (rfc.addPersistentActions oldRFC).actions
      = rfc.actions ++ oldRFC.actions.filter (fun a => a.actionType == CommentAction) ∧
    (rfc.addPersistentActions oldRFC).signature = rfc.signature ∧
    (rfc.addPersistentActions oldRFC).identifier = rfc.identifier := by
  unfold RFC.addPersistentActions
  rw [addPersistentActions_aux]
  exact ⟨rfl, rfl, rfl⟩

end Harmonia
